import Mathlib

/-!
# Verification of the smadkmcp Multi-Channel Semantic Retrieval core

Shallow embedding (in Lean 4) of the core retrieval/rerank/context engine of
the `mcp_servers` service:

* `app/main.py`            — `canonicalize_sloka_index`, `get_sloka_meaning`
* `app/utils/pgutils.py`   — catalog access, embedding searches, bhashya
                             cross references, neighbor windows, chapter
                             context tracing
* `app/utils/misctools.py` — `rerank_sloka_candidates`
* `app/utils/llmutils.py`  — `get_embeddings`

The relational store is modelled as a snapshot of the tables the SQL in the
source reads, plus a `fail` flag standing for "store unavailable"; each SQL
statement of the source is given its standard semantics (WHERE = filter,
ORDER BY = stable sort, LIMIT = take).  Exceptions caught by the Python
`try/except` blocks appear as `Except.error` results which the embedded
functions turn into the same fallback values the Python code returns.
Embedding vectors are abstracted to an opaque value (`Int`) together with an
abstract similarity function producing the comparable score; only ordering
properties of scores are ever claimed.  Python `str` values are Lean
`String`s; a Python `None` string argument is modelled by `""` exactly where
the source only tests truthiness.
-/

namespace Smadkmcp

/-! ## Python string primitives used by the source -/

/-- Model of Python's `str.lower()` (ASCII-accurate; the catalog names and
scripture keys in this repository are ASCII). -/
def pyLower (s : String) : String := ⟨s.data.map Char.toLower⟩

/-- Default whitespace recognised by Python's `str.strip()` (ASCII subset). -/
def isPySpace (c : Char) : Bool :=
  c = ' ' || c = '\t' || c = '\n' || c = '\r' || c = '\x0b' || c = '\x0c'

/-- Model of Python's `str.strip()` on the character list. -/
def pyStripChars (l : List Char) : List Char :=
  ((l.dropWhile isPySpace).reverse.dropWhile isPySpace).reverse

/-- Model of Python's `str.strip()`. -/
def pyStrip (s : String) : String := ⟨pyStripChars s.data⟩

/-- Number of occurrences of `_`: Python's `s.count("_")`. -/
def countUnderscores (s : String) : Nat :=
  (s.data.filter (· = '_')).length

/-- Python's `s.split(c)` for a one-character separator, on char lists:
`"".split(".") = [""]`, separators at the ends produce empty segments. -/
def splitOnChar (c : Char) : List Char → List (List Char)
  | [] => [[]]
  | x :: xs =>
    if x = c then [] :: splitOnChar c xs
    else
      match splitOnChar c xs with
      | [] => [[x]]
      | h :: t => (x :: h) :: t

/-- The part of `s` before the first occurrence of `c` together with the part
after it: Python's `s.split(c, 1)` when `c` occurs in `s`. -/
def pySplit1 (c : Char) (l : List Char) : List Char × List Char :=
  (l.takeWhile (· ≠ c), (l.dropWhile (· ≠ c)).drop 1)

/-- Value of a digit list, most significant first. -/
def digitsVal (l : List Char) : Nat :=
  l.foldl (fun acc c => acc * 10 + (c.toNat - 48)) 0

/-- Parse a nonempty all-digit character list. -/
def parseDigits (l : List Char) : Option Nat :=
  if l ≠ [] ∧ l.all Char.isDigit then some (digitsVal l) else none

/-- Model of Python's `int(s)` on an already stripped string: an optional
sign followed by decimal digits.  (Python additionally accepts underscore
digit grouping and non-ASCII digits; no caller in this repository relies on
those and they are not modelled.) -/
def parsePyInt (l : List Char) : Option Int :=
  match l with
  | [] => none
  | c :: rest =>
    if c = '-' then
      match parseDigits rest with
      | some k => some (-(k : Int))
      | none => none
    else if c = '+' then
      match parseDigits rest with
      | some k => some ((k : Int))
      | none => none
    else
      match parseDigits (c :: rest) with
      | some k => some ((k : Int))
      | none => none

/-- Model of Python's `f"{n:02d}"`: zero-pad nonnegative single digits to
width two; other values (≥ 10 or negative) print as-is. -/
def pyFmt02 (n : Int) : String :=
  if 0 ≤ n ∧ n < 10 then "0" ++ toString n else toString n

/-! ### Small lemmas about the string primitives -/

theorem string_eq_iff_data {s t : String} : s = t ↔ s.data = t.data := by
  constructor
  · intro h; rw [h]
  · intro h; cases s; cases t; exact congrArg String.mk h

theorem pyLower_empty_iff (s : String) : pyLower s = "" ↔ s = "" := by
  rw [string_eq_iff_data (s := pyLower s), string_eq_iff_data (s := s)]
  show s.data.map Char.toLower = [] ↔ s.data = []
  simp

theorem splitOnChar_ne_nil (c : Char) (l : List Char) : splitOnChar c l ≠ [] := by
  cases l with
  | nil => simp [splitOnChar]
  | cons x xs =>
    simp only [splitOnChar]
    by_cases h : x = c
    · simp [h]
    · simp only [h, if_false]
      cases splitOnChar c xs with
      | nil => simp
      | cons h t => simp

/-- Structure of `splitOnChar`: head is the prefix before the first
separator, tail is the split of the rest (empty when no separator occurs). -/
theorem splitOnChar_struct (c : Char) (l : List Char) :
    splitOnChar c l =
      l.takeWhile (· ≠ c) ::
        (if c ∈ l then splitOnChar c ((l.dropWhile (· ≠ c)).drop 1) else []) := by
  induction l with
  | nil => simp [splitOnChar, List.takeWhile]
  | cons x xs ih =>
    by_cases hx : x = c
    · subst hx
      simp [splitOnChar, List.takeWhile, List.dropWhile]
    · have hmem : (c ∈ x :: xs) = (c ∈ xs) := by
        apply propext
        constructor
        · intro h
          rcases List.mem_cons.mp h with h | h
          · exact absurd h.symm hx
          · exact h
        · intro h; exact List.mem_cons_of_mem _ h
      have htw : (x :: xs).takeWhile (· ≠ c) = x :: xs.takeWhile (· ≠ c) := by
        simp [List.takeWhile_cons, hx]
      have hdw : (x :: xs).dropWhile (· ≠ c) = xs.dropWhile (· ≠ c) := by
        simp [List.dropWhile_cons, hx]
      simp only [splitOnChar, if_neg hx]
      cases hsp : splitOnChar c xs with
      | nil => exact absurd hsp (splitOnChar_ne_nil c xs)
      | cons h t =>
        have hct := hsp.symm.trans ih
        rw [List.cons.injEq] at hct
        obtain ⟨h1, h2⟩ := hct
        subst h1; subst h2
        rw [htw, hdw]
        simp only [hmem]

theorem splitOnChar_of_not_mem (c : Char) (l : List Char) (h : c ∉ l) :
    splitOnChar c l = [l] := by
  rw [splitOnChar_struct]
  simp only [h, if_false]
  congr 1
  exact List.takeWhile_eq_self_iff.mpr (fun x hx => by
    by_cases hxc : x = c
    · exact absurd (hxc ▸ hx) h
    · simpa using hxc)

/-- Every character of a successfully parsed integer literal is a digit or a
sign; in particular no `.` survives `int()`. -/
theorem parsePyInt_chars {l : List Char} {n : Int} (h : parsePyInt l = some n) :
    ∀ x ∈ l, x.isDigit ∨ x = '-' ∨ x = '+' := by
  intro x hx
  cases l with
  | nil => simp at hx
  | cons c rest =>
    have digits_of : ∀ {m : List Char} {k : Nat}, parseDigits m = some k →
        ∀ y ∈ m, y.isDigit := by
      intro m k hm y hy
      unfold parseDigits at hm
      split at hm
      · next hcond => exact List.all_eq_true.mp hcond.2 y hy
      · exact absurd hm (by simp)
    simp only [parsePyInt] at h
    by_cases hc : c = '-'
    · rw [if_pos hc] at h
      cases hk : parseDigits rest with
      | none => rw [hk] at h; cases h
      | some k =>
        rcases List.mem_cons.mp hx with h1 | h1
        · right; left; rw [h1, hc]
        · exact Or.inl (digits_of hk x h1)
    · rw [if_neg hc] at h
      by_cases hp : c = '+'
      · rw [if_pos hp] at h
        cases hk : parseDigits rest with
        | none => rw [hk] at h; cases h
        | some k =>
          rcases List.mem_cons.mp hx with h1 | h1
          · right; right; rw [h1, hp]
          · exact Or.inl (digits_of hk x h1)
      · rw [if_neg hp] at h
        cases hk : parseDigits (c :: rest) with
        | none => rw [hk] at h; cases h
        | some k => exact Or.inl (digits_of hk x hx)

/-- Non-whitespace characters survive Python's `strip()`. -/
theorem mem_pyStripChars {l : List Char} {x : Char}
    (hx : x ∈ l) (hnw : isPySpace x = false) : x ∈ pyStripChars l := by
  unfold pyStripChars
  have mem_dropWhile : ∀ (m : List Char), x ∈ m → x ∈ m.dropWhile isPySpace := by
    intro m hm
    induction m with
    | nil => simp at hm
    | cons a as ih =>
      rw [List.dropWhile_cons]
      by_cases ha : isPySpace a = true
      · rw [if_pos ha]
        rcases List.mem_cons.mp hm with h1 | h1
        · rw [h1] at hnw; rw [hnw] at ha; cases ha
        · exact ih h1
      · rw [if_neg ha]; exact hm
  rw [List.mem_reverse]
  exact mem_dropWhile _ (by rw [List.mem_reverse]; exact mem_dropWhile _ hx)

/-! ## Scripture Catalog and Canonical Index Resolver

Source: `app/main.py` lines 388-423 (`canonicalize_sloka_index`) and
`app/utils/pgutils.py` lines 345-374 (`list_all_scriptures`). -/

/-- One row of `dharma.scriptures` as returned by `list_all_scriptures`
(plain dict rows).  Missing / `NULL` string fields are `""`, matching the
Python truthiness tests `meta.get(...) or ...` applied to them. -/
structure ScriptureRow where
  scripture_name : String
  start_sloka_index : String
  canonical_start : String
deriving Repr, DecidableEq

/-- Error cases of `canonicalize_sloka_index`; each constructor corresponds
to one literal error message of the source:
* `missingInput`     — "Provide scripture_name and sloka_index like 2.47"
* `badInt`           — "sloka_index must be chapter.sloka with integers"
* `unknownScripture` — "scripture_name ... not found in list_scriptures"
* `malformedCatalog` — "Scripture metadata lacks canonical start index to infer prefix"
-/
inductive CanonError where
  | missingInput
  | badInt
  | unknownScripture
  | malformedCatalog
deriving Repr, DecidableEq

/-- Result dict of `canonicalize_sloka_index`: either
`{"success": True, "canonical_sloka_index": ..., "scripture_name": ...}` or
`{"success": False, "error": ...}`. -/
inductive CanonResult where
  | ok (canonical_sloka_index : String) (scripture_name : String)
  | err (e : CanonError)
deriving Repr, DecidableEq

def CanonResult.isErr : CanonResult → Bool
  | .err _ => true
  | .ok _ _ => false

/-- The case-insensitive catalog lookup loop of `canonicalize_sloka_index`
(first row whose lowered `scripture_name` equals the lowered argument). -/
def findScripture (rows : List ScriptureRow) (sname : String) : Option ScriptureRow :=
  rows.find? (fun r => pyLower r.scripture_name = pyLower sname)

/-- `meta.get("start_sloka_index") or meta.get("canonical_start") or ""`. -/
def effStart (r : ScriptureRow) : String :=
  if r.start_sloka_index ≠ "" then r.start_sloka_index else r.canonical_start

/-- `"_".join(start_idx.split("_")[:-2])` — the canonical prefix. -/
def catalogPrefix (startIdx : String) : String :=
  ⟨List.intercalate ['_'] ((splitOnChar '_' startIdx.data).dropLast.dropLast)⟩

/-- The `chap_str, sloka_str = [p.strip() for p in sloka_index.split(".", 1)]`
followed by `int(...)` part of the resolver, as one parser.  `none` means
the code takes an error return (`missingInput` when there is no dot at all,
`badInt` when a segment is not an integer). -/
def parseChapterVerse (idx : String) : Option (Int × Int) :=
  if idx = "" ∨ ¬ ('.' ∈ idx.data) then none
  else
    match parsePyInt (pyStripChars (pySplit1 '.' idx.data).1),
        parsePyInt (pyStripChars (pySplit1 '.' idx.data).2) with
    | some ch, some sl => some (ch, sl)
    | _, _ => none

/-- `canonicalize_sloka_index` (main.py) given the already fetched catalog
rows (the source fetches them itself via `list_all_scriptures`; see
`canonicalize_sloka_index` below for the composed form). -/
def canonicalize_core (rows : List ScriptureRow) (scripture_name sloka_index : String) :
    CanonResult :=
  if scripture_name = "" ∨ sloka_index = "" ∨ ¬ ('.' ∈ sloka_index.data) then
    .err .missingInput
  else
    match parsePyInt (pyStripChars (pySplit1 '.' sloka_index.data).1),
        parsePyInt (pyStripChars (pySplit1 '.' sloka_index.data).2) with
    | some ch_num, some sl_num =>
      match findScripture rows scripture_name with
      | none => .err .unknownScripture
      | some meta =>
        if effStart meta = "" ∨ countUnderscores (effStart meta) < 2 then
          .err .malformedCatalog
        else
          .ok (catalogPrefix (effStart meta) ++ "_" ++ pyFmt02 ch_num ++ "_" ++ pyFmt02 sl_num)
            scripture_name
    | _, _ => .err .badInt

/-- Spec-side reading of the input constraint: the index splits into exactly
two dot-separated segments, both of which are Python-integer-valued. -/
def specTwoIntSegments (idx : String) : Bool :=
  match splitOnChar '.' idx.data with
  | [a, b] => (parsePyInt (pyStripChars a)).isSome && (parsePyInt (pyStripChars b)).isSome
  | _ => false

/-- A stripped segment that parses as an integer contains no dot. -/
theorem not_dot_of_parse {l : List Char} {n : Int}
    (h : parsePyInt (pyStripChars l) = some n) : '.' ∉ l := by
  intro hdot
  have hmem : '.' ∈ pyStripChars l := mem_pyStripChars hdot (by decide)
  rcases parsePyInt_chars h '.' hmem with h1 | h1 | h1
  · exact absurd h1 (by decide)
  · exact absurd h1 (by decide)
  · exact absurd h1 (by decide)

/-- `specTwoIntSegments` agrees with the code's `split(".", 1)` + `int`
parsing whenever the index contains a dot. -/
theorem spec_iff_code_parse (idx : String) (hdot : '.' ∈ idx.data) :
    specTwoIntSegments idx = true ↔
      ((parsePyInt (pyStripChars ((pySplit1 '.' idx.data).1))).isSome = true ∧
       (parsePyInt (pyStripChars ((pySplit1 '.' idx.data).2))).isSome = true) := by
  constructor
  · intro hspec
    unfold specTwoIntSegments at hspec
    rw [splitOnChar_struct, if_pos hdot] at hspec
    set R := (idx.data.dropWhile (· ≠ '.')).drop 1 with hR
    cases hsr : splitOnChar '.' R with
    | nil => exact absurd hsr (splitOnChar_ne_nil '.' R)
    | cons b t =>
      rw [hsr] at hspec
      cases t with
      | cons b2 t2 => simp at hspec
      | nil =>
        -- hspec now says both segments parse; identify b with R
        have hnd : '.' ∉ R := by
          intro hmemR
          rw [splitOnChar_struct, if_pos hmemR] at hsr
          have := splitOnChar_ne_nil '.' ((R.dropWhile (· ≠ '.')).drop 1)
          rw [List.cons.injEq] at hsr
          exact this hsr.2
        have hbR : b = R := by
          have h2 := (splitOnChar_of_not_mem '.' R hnd).symm.trans hsr
          rw [List.cons.injEq] at h2
          exact h2.1.symm
        subst hbR
        have hspec2 : ((parsePyInt (pyStripChars (idx.data.takeWhile (· ≠ '.')))).isSome &&
            (parsePyInt (pyStripChars R)).isSome) = true := hspec
        rw [Bool.and_eq_true] at hspec2
        exact ⟨hspec2.1, hspec2.2⟩
  · rintro ⟨h1, h2⟩
    have hnd : '.' ∉ (idx.data.dropWhile (· ≠ '.')).drop 1 := by
      rcases Option.isSome_iff_exists.mp h2 with ⟨n, hn⟩
      exact not_dot_of_parse hn
    unfold specTwoIntSegments
    rw [splitOnChar_struct, if_pos hdot, splitOnChar_of_not_mem '.' _ hnd]
    show ((parsePyInt (pyStripChars (idx.data.takeWhile (· ≠ '.')))).isSome &&
        (parsePyInt (pyStripChars ((idx.data.dropWhile (· ≠ '.')).drop 1))).isSome) = true
    rw [Bool.and_eq_true]
    exact ⟨h1, h2⟩

/-- Successful-path computation of `canonicalize_sloka_index`: whenever the
guard passes, both `int()` calls succeed, the scripture is found and its
effective start index has at least two underscores, the result is
`{"success": True, "canonical_sloka_index": prefix_CC_VV}`. -/
theorem canonicalize_core_ok (rows : List ScriptureRow) (sname idx : String)
    (meta : ScriptureRow) (ch sl : Int)
    (hs : sname ≠ "")
    (hfind : findScripture rows sname = some meta)
    (hstart : 2 ≤ countUnderscores (effStart meta))
    (hparse : parseChapterVerse idx = some (ch, sl)) :
    canonicalize_core rows sname idx =
      .ok (catalogPrefix (effStart meta) ++ "_" ++ pyFmt02 ch ++ "_" ++ pyFmt02 sl) sname := by
  unfold parseChapterVerse at hparse
  by_cases hidx : idx = "" ∨ ¬ ('.' ∈ idx.data)
  · rw [if_pos hidx] at hparse; cases hparse
  · rw [if_neg hidx] at hparse
    unfold canonicalize_core
    rw [if_neg (by
      intro hcon
      rcases hcon with h | h
      · exact hs h
      · exact hidx h)]
    cases h1 : parsePyInt (pyStripChars ((pySplit1 '.' idx.data).1)) with
    | none => rw [h1] at hparse; cases hparse
    | some a =>
      cases h2 : parsePyInt (pyStripChars ((pySplit1 '.' idx.data).2)) with
      | none => rw [h1, h2] at hparse; cases hparse
      | some b =>
        rw [h1, h2] at hparse
        have hab : a = ch ∧ b = sl := by
          have := hparse
          simp only [Option.some.injEq, Prod.mk.injEq] at this
          exact this
        rw [hab.1, hab.2, hfind]
        show (if effStart meta = "" ∨ countUnderscores (effStart meta) < 2 then
            CanonResult.err CanonError.malformedCatalog
          else
            CanonResult.ok (catalogPrefix (effStart meta) ++ "_" ++ pyFmt02 ch ++ "_" ++ pyFmt02 sl)
              sname) =
          CanonResult.ok (catalogPrefix (effStart meta) ++ "_" ++ pyFmt02 ch ++ "_" ++ pyFmt02 sl)
            sname
        rw [if_neg (by
          intro hcon
          rcases hcon with h | h
          · rw [h] at hstart; exact absurd hstart (by decide)
          · omega)]

/-- Guard-failure path of the resolver. -/
theorem canonicalize_core_missing (rows : List ScriptureRow) (sname idx : String)
    (h : sname = "" ∨ idx = "" ∨ ¬ ('.' ∈ idx.data)) :
    canonicalize_core rows sname idx = .err .missingInput := by
  unfold canonicalize_core
  rw [if_pos h]

/-- `int()`-failure path of the resolver. -/
theorem canonicalize_core_badInt (rows : List ScriptureRow) (sname idx : String)
    (hguard : ¬ (sname = "" ∨ idx = "" ∨ ¬ ('.' ∈ idx.data)))
    (h : parsePyInt (pyStripChars ((pySplit1 '.' idx.data).1)) = none ∨
         parsePyInt (pyStripChars ((pySplit1 '.' idx.data).2)) = none) :
    canonicalize_core rows sname idx = .err .badInt := by
  unfold canonicalize_core
  rw [if_neg hguard]
  cases hc1 : parsePyInt (pyStripChars ((pySplit1 '.' idx.data).1)) with
  | none => rfl
  | some a =>
    cases hc2 : parsePyInt (pyStripChars ((pySplit1 '.' idx.data).2)) with
    | none => rfl
    | some b =>
      rcases h with h | h
      · rw [hc1] at h; cases h
      · rw [hc2] at h; cases h

/-- Unknown-scripture path of the resolver. -/
theorem canonicalize_core_unknown (rows : List ScriptureRow) (sname idx : String)
    (hguard : ¬ (sname = "" ∨ idx = "" ∨ ¬ ('.' ∈ idx.data)))
    (h1 : (parsePyInt (pyStripChars ((pySplit1 '.' idx.data).1))).isSome = true)
    (h2 : (parsePyInt (pyStripChars ((pySplit1 '.' idx.data).2))).isSome = true)
    (hfind : findScripture rows sname = none) :
    canonicalize_core rows sname idx = .err .unknownScripture := by
  unfold canonicalize_core
  rw [if_neg hguard]
  cases hc1 : parsePyInt (pyStripChars ((pySplit1 '.' idx.data).1)) with
  | none => rw [hc1] at h1; cases h1
  | some a =>
    cases hc2 : parsePyInt (pyStripChars ((pySplit1 '.' idx.data).2)) with
    | none => rw [hc2] at h2; cases h2
    | some b => rw [hfind]

/-- Malformed-catalog path of the resolver. -/
theorem canonicalize_core_malformed (rows : List ScriptureRow) (sname idx : String)
    (meta : ScriptureRow)
    (hguard : ¬ (sname = "" ∨ idx = "" ∨ ¬ ('.' ∈ idx.data)))
    (h1 : (parsePyInt (pyStripChars ((pySplit1 '.' idx.data).1))).isSome = true)
    (h2 : (parsePyInt (pyStripChars ((pySplit1 '.' idx.data).2))).isSome = true)
    (hfind : findScripture rows sname = some meta)
    (hbad : effStart meta = "" ∨ countUnderscores (effStart meta) < 2) :
    canonicalize_core rows sname idx = .err .malformedCatalog := by
  unfold canonicalize_core
  rw [if_neg hguard]
  cases hc1 : parsePyInt (pyStripChars ((pySplit1 '.' idx.data).1)) with
  | none => rw [hc1] at h1; cases h1
  | some a =>
    cases hc2 : parsePyInt (pyStripChars ((pySplit1 '.' idx.data).2)) with
    | none => rw [hc2] at h2; cases h2
    | some b =>
      rw [hfind]
      show (if effStart meta = "" ∨ countUnderscores (effStart meta) < 2 then
          CanonResult.err CanonError.malformedCatalog
        else
          CanonResult.ok (catalogPrefix (effStart meta) ++ "_" ++ pyFmt02 a ++ "_" ++ pyFmt02 b)
            sname) = CanonResult.err CanonError.malformedCatalog
      rw [if_pos hbad]

/-- C1 as frozen is refuted by a catalog entry whose `start_sloka_index` has
exactly two underscore-delimited segments (one underscore): the scripture is
present, the index parses, yet the resolver fails instead of returning
success with the two-segments-dropped prefix. -/
theorem c1_counterexample :
    findScripture [⟨"gita", "01_01", ""⟩] "gita" = some ⟨"gita", "01_01", ""⟩ ∧
    parseChapterVerse "1.1" = some (1, 1) ∧
    canonicalize_core [⟨"gita", "01_01", ""⟩] "gita" "1.1" =
      CanonResult.err CanonError.malformedCatalog := by
  refine ⟨?_, ?_, ?_⟩ <;> rfl

/-- C1 (amended): for every scripture present in the catalog (case-insensitive
match) whose effective start index has at least two underscores (at least
three underscore-delimited segments), and every index parsing as
`chapter.verse` with integer chapter and verse, `canonicalize_sloka_index`
returns success with canonical index `prefix ++ "_CC_VV"` where the prefix
drops the last two underscore-delimited segments of the start index and
chapter/verse are zero-padded to two digits without truncation.  Repeated
calls with an unchanged catalog agree since the resolver is a pure function
of the catalog snapshot and the inputs. -/
theorem c1_canonical_index_amended (rows : List ScriptureRow) (sname idx : String)
    (meta : ScriptureRow) (ch sl : Int)
    (hs : sname ≠ "")
    (hfind : findScripture rows sname = some meta)
    (hstart : 2 ≤ countUnderscores (effStart meta))
    (hparse : parseChapterVerse idx = some (ch, sl)) :
    canonicalize_core rows sname idx =
      .ok (catalogPrefix (effStart meta) ++ "_" ++ pyFmt02 ch ++ "_" ++ pyFmt02 sl) sname :=
  canonicalize_core_ok rows sname idx meta ch sl hs hfind hstart hparse

/-- C1 witness: `("gita", "12.5")` with start index `KRISHNA_BG_01_01` yields
`KRISHNA_BG_12_05`: chapter and verse at or above 10 are not truncated. -/
theorem c1_witness :
    ("gita" : String) ≠ "" ∧
    canonicalize_core [⟨"gita", "KRISHNA_BG_01_01", ""⟩] "gita" "12.5" =
      CanonResult.ok "KRISHNA_BG_12_05" "gita" :=
  ⟨by decide, by
    exact c1_canonical_index_amended [⟨"gita", "KRISHNA_BG_01_01", ""⟩] "gita" "12.5"
      ⟨"gita", "KRISHNA_BG_01_01", ""⟩ 12 5 (by decide) rfl (by decide) rfl⟩

/-- C2 as frozen is refuted at catalog entry `start_sloka_index = "01_01"`:
the call fails (returns a `success: false` value), yet the index has exactly
two integer dot-segments, the scripture is found, and the start index does
NOT have fewer than two underscore-delimited segments (it has exactly two),
so none of the three enumerated failure conditions holds. -/
theorem c2_counterexample :
    (canonicalize_core [⟨"x", "01_01", ""⟩] "x" "2.3").isErr = true ∧
    specTwoIntSegments "2.3" = true ∧
    findScripture [⟨"x", "01_01", ""⟩] "x" = some ⟨"x", "01_01", ""⟩ ∧
    ¬ ((splitOnChar '_' (effStart ⟨"x", "01_01", ""⟩).data).length < 2) := by
  exact ⟨rfl, rfl, rfl, by decide⟩

/-- C2 (amended): over catalogs whose rows carry nonempty scripture names,
`canonicalize_sloka_index` returns a failure value exactly when the index
does not split into exactly two integer-valued dot-separated segments
(`InvalidFormat`, which also covers the initial missing-input guard), or the
scripture name is absent under case-insensitive lookup (`UnknownScripture`),
or the found scripture's effective start index has fewer than two
underscores, i.e. fewer than three underscore-delimited segments
(`MalformedCatalogEntry`).  The function never raises: the embedding is a
total function returning an explicit error value. -/
theorem c2_failure_characterization_amended (rows : List ScriptureRow) (sname idx : String)
    (hrows : ∀ r ∈ rows, r.scripture_name ≠ "") :
    (canonicalize_core rows sname idx).isErr = true ↔
      (specTwoIntSegments idx = false ∨
       findScripture rows sname = none ∨
       ∃ r, findScripture rows sname = some r ∧ countUnderscores (effStart r) < 2) := by
  by_cases hsn : sname = ""
  · have hfind : findScripture rows sname = none := by
      unfold findScripture
      rw [List.find?_eq_none]
      intro r hr
      simp only [decide_eq_true_eq]
      intro heq
      have hempty : pyLower r.scripture_name = "" := by
        rw [heq, hsn]; rfl
      exact hrows r hr ((pyLower_empty_iff _).mp hempty)
    rw [canonicalize_core_missing rows sname idx (Or.inl hsn)]
    exact iff_of_true rfl (Or.inr (Or.inl hfind))
  · by_cases hidx : idx = "" ∨ ¬ ('.' ∈ idx.data)
    · have hspec : specTwoIntSegments idx = false := by
        rcases hidx with h | h
        · rw [h]; rfl
        · unfold specTwoIntSegments
          rw [splitOnChar_of_not_mem '.' idx.data h]
      rw [canonicalize_core_missing rows sname idx (Or.inr hidx)]
      exact iff_of_true rfl (Or.inl hspec)
    · have hguard : ¬ (sname = "" ∨ idx = "" ∨ ¬ ('.' ∈ idx.data)) := by
        intro h
        rcases h with h | h
        · exact hsn h
        · exact hidx h
      have hdot : '.' ∈ idx.data := not_not.mp (not_or.mp hidx).2
      cases hc1 : parsePyInt (pyStripChars ((pySplit1 '.' idx.data).1)) with
      | none =>
        have hspec : specTwoIntSegments idx = false := by
          rw [Bool.eq_false_iff]
          intro htrue
          rcases (spec_iff_code_parse idx hdot).mp htrue with ⟨hp1, _⟩
          rw [hc1] at hp1; cases hp1
        rw [canonicalize_core_badInt rows sname idx hguard (Or.inl hc1)]
        exact iff_of_true rfl (Or.inl hspec)
      | some a =>
        cases hc2 : parsePyInt (pyStripChars ((pySplit1 '.' idx.data).2)) with
        | none =>
          have hspec : specTwoIntSegments idx = false := by
            rw [Bool.eq_false_iff]
            intro htrue
            rcases (spec_iff_code_parse idx hdot).mp htrue with ⟨_, hp2⟩
            rw [hc2] at hp2; cases hp2
          rw [canonicalize_core_badInt rows sname idx hguard (Or.inr hc2)]
          exact iff_of_true rfl (Or.inl hspec)
        | some b =>
          have hspec : specTwoIntSegments idx = true :=
            (spec_iff_code_parse idx hdot).mpr ⟨by rw [hc1]; rfl, by rw [hc2]; rfl⟩
          have h1s : (parsePyInt (pyStripChars ((pySplit1 '.' idx.data).1))).isSome = true := by
            rw [hc1]; rfl
          have h2s : (parsePyInt (pyStripChars ((pySplit1 '.' idx.data).2))).isSome = true := by
            rw [hc2]; rfl
          cases hfind : findScripture rows sname with
          | none =>
            rw [canonicalize_core_unknown rows sname idx hguard h1s h2s hfind]
            exact iff_of_true rfl (Or.inr (Or.inl rfl))
          | some meta =>
            by_cases hbad : effStart meta = "" ∨ countUnderscores (effStart meta) < 2
            · have hlt : countUnderscores (effStart meta) < 2 := by
                rcases hbad with h | h
                · rw [h]; decide
                · exact h
              rw [canonicalize_core_malformed rows sname idx meta hguard h1s h2s hfind hbad]
              exact iff_of_true rfl (Or.inr (Or.inr ⟨meta, rfl, hlt⟩))
            · have hstart : 2 ≤ countUnderscores (effStart meta) := by
                rcases not_or.mp hbad with ⟨_, h⟩
                omega
              have hparse : parseChapterVerse idx = some (a, b) := by
                unfold parseChapterVerse
                rw [if_neg (by
                  intro h
                  exact hidx h)]
                rw [hc1, hc2]
              rw [canonicalize_core_ok rows sname idx meta a b hsn hfind hstart hparse]
              refine iff_of_false (by simp [CanonResult.isErr]) ?_
              intro hcon
              rcases hcon with h | h | ⟨r, hr, hrlt⟩
              · rw [hspec] at h; cases h
              · cases h
              · have : r = meta := by
                  injection hr with h'
                  exact h'.symm
                rw [this] at hrlt
                omega

/-- C2 witness: an unknown scripture name produces an explicit failure value. -/
theorem c2_witness :
    (canonicalize_core [⟨"gita", "KRISHNA_BG_01_01", ""⟩] "nope" "1.1").isErr = true :=
  (c2_failure_characterization_amended [⟨"gita", "KRISHNA_BG_01_01", ""⟩] "nope" "1.1"
    (by decide)).mpr (Or.inr (Or.inl rfl))

/-! ## Stable ordering (`ORDER BY` of the SQL queries, `list.sort` of Python)

`insertOrd le x l` puts `x` before the first element `y` with `le x y`;
folding it over a list from the right is a stable insertion sort, the model
used for every `ORDER BY ... DESC/ASC` result set and for the reranker's
`merged.sort(key=..., reverse=True)` (both are stable for our purposes:
only the pairwise ordering of the produced list is ever claimed). -/

def insertOrd (le : α → α → Bool) (x : α) : List α → List α
  | [] => [x]
  | y :: ys => if le x y then x :: y :: ys else y :: insertOrd le x ys

def sortOrd (le : α → α → Bool) : List α → List α
  | [] => []
  | x :: xs => insertOrd le x (sortOrd le xs)

theorem insertOrd_perm (le : α → α → Bool) (x : α) (l : List α) :
    (insertOrd le x l).Perm (x :: l) := by
  induction l with
  | nil => exact List.Perm.refl _
  | cons y ys ih =>
    unfold insertOrd
    by_cases h : le x y
    · rw [if_pos h]
    · rw [if_neg h]
      exact (List.Perm.cons y ih).trans (List.Perm.swap x y ys)

theorem sortOrd_perm (le : α → α → Bool) (l : List α) :
    (sortOrd le l).Perm l := by
  induction l with
  | nil => exact List.Perm.refl _
  | cons x xs ih =>
    exact (insertOrd_perm le x (sortOrd le xs)).trans (List.Perm.cons x ih)

theorem length_sortOrd (le : α → α → Bool) (l : List α) :
    (sortOrd le l).length = l.length :=
  (sortOrd_perm le l).length_eq

theorem mem_sortOrd (le : α → α → Bool) (l : List α) (a : α) :
    a ∈ sortOrd le l ↔ a ∈ l :=
  (sortOrd_perm le l).mem_iff

theorem insertOrd_pairwise (le : α → α → Bool)
    (htot : ∀ a b, le a b = true ∨ le b a = true)
    (htr : ∀ a b c, le a b = true → le b c = true → le a c = true)
    (x : α) (l : List α) (hl : l.Pairwise (fun a b => le a b = true)) :
    (insertOrd le x l).Pairwise (fun a b => le a b = true) := by
  induction l with
  | nil => simp [insertOrd]
  | cons y ys ih =>
    rcases List.pairwise_cons.mp hl with ⟨hy, hys⟩
    unfold insertOrd
    by_cases h : le x y
    · rw [if_pos h]
      refine List.pairwise_cons.mpr ⟨?_, hl⟩
      intro b hb
      rcases List.mem_cons.mp hb with hb | hb
      · rw [hb]; exact h
      · exact htr x y b h (hy b hb)
    · rw [if_neg h]
      refine List.pairwise_cons.mpr ⟨?_, ih hys⟩
      intro b hb
      rcases List.mem_cons.mp ((insertOrd_perm le x ys).mem_iff.mp hb) with hb | hb
      · rw [hb]
        rcases htot x y with hxy | hyx
        · exact absurd hxy h
        · exact hyx
      · exact hy b hb

theorem sortOrd_pairwise (le : α → α → Bool)
    (htot : ∀ a b, le a b = true ∨ le b a = true)
    (htr : ∀ a b c, le a b = true → le b c = true → le a c = true)
    (l : List α) :
    (sortOrd le l).Pairwise (fun a b => le a b = true) := by
  induction l with
  | nil => simp [sortOrd]
  | cons x xs ih => exact insertOrd_pairwise le htot htr x (sortOrd le xs) ih

/-! ## The relational store

A snapshot of every `dharma.*` relation read by the embedded functions, plus
a `fail` flag standing for "store unreachable / query raised".  Each SQL
statement of the source is modelled by a function of this snapshot returning
`Except Unit rows`; `Except.error ()` is the exception the Python caller
catches.  `NULL` text columns are `""` (the callers only test truthiness). -/

/-- Row of `dharma.sloka_meaning` (columns used by the source). -/
structure SMRow where
  sloka_index : String
  scripture_name : String
  input_sloka : String
  english_meaning : String
  keywords : String
deriving Repr, DecidableEq

/-- Row of `dharma.gita_bhashya`. -/
structure GBRow where
  scripture_name : String
  sloka_index : String
  gita_sloka_index : String
deriving Repr, DecidableEq

/-- Row of `dharma.yogasutras_bhashyas`. -/
structure YBRow where
  sloka_index : String
  scripture_name : String
  yogasutras_bhashya_sloka_index : String
deriving Repr, DecidableEq

/-- Row of a per-channel `dharma.sloka_meaning_*_embeddings` table.  The
pgvector embedding is abstracted to an opaque `Int` token; similarity
against a query vector is an abstract function of the two tokens. -/
structure EmbRow where
  sloka_index : String
  scripture_name : String
  input_sloka : String
  english_meaning : String
  keywords : String
  content_type : String
  embedding : Int
deriving Repr, DecidableEq

/-- Row of a chapter-summary materialized view
(`dharma.mv_*_enriched` / `dharma.mv_bhagavatham_glossary`). -/
structure SummaryRow where
  start_sloka_index : String
  end_sloka_index : String
  short_summary : String
  long_summary : String
  emotional_elements : String
  key_characters : String
  thematic_analysis : String
  dharmic_insights : String
  sanskrit_glossary : String
deriving Repr, DecidableEq

/-- Snapshot of the store. -/
structure DB where
  fail : Bool
  scriptures : List ScriptureRow
  sloka_meaning : List SMRow
  gita_bhashya : List GBRow
  yogasutras_bhashyas : List YBRow
  emb_en : List EmbRow
  emb_sa : List EmbRow
  emb_glossary : List EmbRow
  mv_ramayana : List SummaryRow
  mv_mahabharata : List SummaryRow
  mv_bhagavatham : List SummaryRow
deriving Repr, DecidableEq

/-- `MAX_RESULTS_LIMIT` (pgutils.py line 11). -/
def MAX_RESULTS_LIMIT : Nat := 50

/-! ## Commentary Cross-Reference Resolver

Source: `pgutils.get_bhashya_references` (lines 17-54). -/

/-- One element of the result list: `{"scripture_name": ..., "sloka_index": ...}`. -/
structure BRef where
  scripture_name : String
  sloka_index : String
deriving Repr, DecidableEq

/-- `SELECT scripture_name, sloka_index FROM dharma.gita_bhashya WHERE
gita_sloka_index = %s`. -/
def gitaBhashyaQuery (db : DB) (idx : String) : Except Unit (List GBRow) :=
  if db.fail then .error () else .ok (db.gita_bhashya.filter (fun r => r.gita_sloka_index = idx))

/-- `SELECT yogasutras_bhashya_sloka_index AS sloka_index, scripture_name
FROM dharma.yogasutras_bhashyas WHERE sloka_index = %s LIMIT 1` with
`fetch='one'`. -/
def yogaBhashyaQuery (db : DB) (idx : String) : Except Unit (Option YBRow) :=
  if db.fail then .error () else .ok ((db.yogasutras_bhashyas.filter (fun r => r.sloka_index = idx)).head?)

/-- `get_bhashya_references`: gita → all commentary rows joined on the base
index; yogasutras → at most one row; anything else → `[]`; empty arguments
or a raised query → `[]`. -/
def get_bhashya_references (db : DB) (sloka_index : String) (scripture_name : String) :
    List BRef :=
  if sloka_index = "" ∨ scripture_name = "" then []
  else if pyLower scripture_name = "gita" then
    match gitaBhashyaQuery db sloka_index with
    | .error _ => []
    | .ok rows =>
      (rows.filter (fun r => r.sloka_index ≠ "")).map
        (fun r => ⟨r.scripture_name, r.sloka_index⟩)
  else if pyLower scripture_name = "yogasutras" then
    match yogaBhashyaQuery db sloka_index with
    | .error _ => []
    | .ok none => []
    | .ok (some r) =>
      if r.yogasutras_bhashya_sloka_index ≠ "" then
        [⟨r.scripture_name, r.yogasutras_bhashya_sloka_index⟩]
      else []
  else []

/-- C9: commentary resolution is scripture-specific and total.  For gita it
returns all commentary rows joined on the base index (completeness of the
multi-commentary branch), for yogasutras at most one row, for any other
scripture always `[]`, and any lookup failure (store unavailable — `db.fail`)
or malformed/empty index degrades to `[]`.  The embedded function is total:
no case raises. -/
theorem c9_bhashya_total (db : DB) (idx sname : String) :
    (pyLower sname ≠ "gita" → pyLower sname ≠ "yogasutras" →
      get_bhashya_references db idx sname = []) ∧
    (db.fail = true → get_bhashya_references db idx sname = []) ∧
    (pyLower sname = "yogasutras" → (get_bhashya_references db idx sname).length ≤ 1) ∧
    (db.fail = false → pyLower sname = "gita" → idx ≠ "" →
      ∀ r ∈ db.gita_bhashya, r.gita_sloka_index = idx → r.sloka_index ≠ "" →
        (⟨r.scripture_name, r.sloka_index⟩ : BRef) ∈ get_bhashya_references db idx sname) := by
  refine ⟨?_, ?_, ?_, ?_⟩
  · intro hg hy
    unfold get_bhashya_references
    by_cases h0 : idx = "" ∨ sname = ""
    · rw [if_pos h0]
    · rw [if_neg h0, if_neg hg, if_neg hy]
  · intro hf
    unfold get_bhashya_references
    by_cases h0 : idx = "" ∨ sname = ""
    · rw [if_pos h0]
    · rw [if_neg h0]
      by_cases hg : pyLower sname = "gita"
      · rw [if_pos hg]
        unfold gitaBhashyaQuery
        rw [hf]
        rfl
      · rw [if_neg hg]
        by_cases hy : pyLower sname = "yogasutras"
        · rw [if_pos hy]
          unfold yogaBhashyaQuery
          rw [hf]
          rfl
        · rw [if_neg hy]
  · intro hy
    unfold get_bhashya_references
    by_cases h0 : idx = "" ∨ sname = ""
    · rw [if_pos h0]; exact Nat.zero_le 1
    · rw [if_neg h0]
      rw [if_neg (by rw [hy]; decide)]
      rw [if_pos hy]
      cases hq : yogaBhashyaQuery db idx with
      | error e => exact Nat.zero_le 1
      | ok o =>
        cases o with
        | none => exact Nat.zero_le 1
        | some r =>
          show (if r.yogasutras_bhashya_sloka_index ≠ "" then
              [(⟨r.scripture_name, r.yogasutras_bhashya_sloka_index⟩ : BRef)]
            else []).length ≤ 1
          by_cases hr : r.yogasutras_bhashya_sloka_index ≠ ""
          · rw [if_pos hr]; exact Nat.le_refl 1
          · rw [if_neg hr]; exact Nat.zero_le 1
  · intro hf hg hidx r hr hjoin hsi
    have hsn : sname ≠ "" := by
      intro h
      rw [h] at hg
      exact absurd hg (by decide)
    unfold get_bhashya_references
    rw [if_neg (by
      intro h
      rcases h with h | h
      · exact hidx h
      · exact hsn h)]
    rw [if_pos hg]
    unfold gitaBhashyaQuery
    rw [hf]
    show (⟨r.scripture_name, r.sloka_index⟩ : BRef) ∈
      ((db.gita_bhashya.filter (fun r => r.gita_sloka_index = idx)).filter
        (fun r => r.sloka_index ≠ "")).map (fun r => (⟨r.scripture_name, r.sloka_index⟩ : BRef))
    refine List.mem_map_of_mem _ ?_
    refine List.mem_filter.mpr ⟨List.mem_filter.mpr ⟨hr, ?_⟩, ?_⟩
    · exact decide_eq_true hjoin
    · exact decide_eq_true hsi

/-! ## Multi-Channel Semantic Search

Source: `pgutils.search_sloka_meaning_en_embeddings_top_n` (lines 153-204)
and its structurally identical `_sa_` (207-253) and `_glossary_` (256-302)
variants; the `Channel` parameter selects the table and the `content_type`
literal, exactly the only points where the three source functions differ.
`llmutils.get_embeddings` (lines 44-58) is the Embedding Provider wrapper. -/

inductive Channel where
  | english
  | sanskrit
  | glossary
deriving Repr, DecidableEq

def channelTable (db : DB) : Channel → List EmbRow
  | .english => db.emb_en
  | .sanskrit => db.emb_sa
  | .glossary => db.emb_glossary

def channelContentType : Channel → String
  | .english => "english"
  | .sanskrit => "sanskrit"
  | .glossary => "glossary"

/-- `llmutils.get_embeddings`: `None` for empty/whitespace-only input, the
provider's answer otherwise; a provider exception is caught and becomes
`None`, so the provider argument is itself `Option`-valued. -/
def get_embeddings (provider : String → Option Int) (text : String) : Option Int :=
  if pyStrip text = "" then none else provider (pyStrip text)

/-- The `scripture_filter` SQL fragment: Python appends a `WHERE` clause
only when `scripture_list` is truthy (non-`None` AND nonempty). -/
def matchesScriptureFilter (slist : Option (List String)) (sn : String) : Bool :=
  match slist with
  | none => true
  | some l => if l.isEmpty then true else l.contains sn

/-- The per-channel SQL `SELECT ... (1 - (embedding <#> '{emb_str}')) AS
score ... WHERE content_type = ... [AND scripture filter] ORDER BY score
DESC LIMIT {top_n}`.  When the embedding is `None` the interpolated literal
is the string `"None"`, which the vector store rejects, raising — hence
`Except.error`; likewise when the store is unavailable. -/
def embSearchQuery (db : DB) (table : List EmbRow) (ctype : String)
    (emb : Option Int) (sim : Int → Int → Int) (slist : Option (List String))
    (limit : Nat) : Except Unit (List (EmbRow × Int)) :=
  if db.fail then .error ()
  else
    match emb with
    | none => .error ()
    | some v =>
      .ok ((sortOrd (fun a b => decide (b.2 ≤ a.2))
        ((table.filter
            (fun r => r.content_type = ctype && matchesScriptureFilter slist r.scripture_name)).map
          (fun r => (r, sim r.embedding v)))).take limit)

/-- One output match of a channel search (lean row plus attached bhashya
references). -/
structure SearchCand where
  sloka_index : String
  scripture_name : String
  input_sloka : String
  english_meaning : String
  glossary_keywords : String
  score : Int
  bhashya_sloka_indexes : List BRef
deriving Repr, DecidableEq

/-- `search_sloka_meaning_{en,sa,glossary}_embeddings_top_n`: clamp `top_n`
to `MAX_RESULTS_LIMIT`, embed once, run the similarity query, skip rows with
a falsy `sloka_index`, enrich each with commentary references; any raised
query yields `[]`. -/
def search_sloka_meaning_embeddings_top_n (ch : Channel) (db : DB)
    (sim : Int → Int → Int) (provider : String → Option Int) (text : String)
    (top_n : Nat) (scripture_list : Option (List String)) : List SearchCand :=
  match embSearchQuery db (channelTable db ch) (channelContentType ch)
      (get_embeddings provider text) sim scripture_list (min top_n MAX_RESULTS_LIMIT) with
  | .error _ => []
  | .ok rows =>
    (rows.filter (fun p => p.1.sloka_index ≠ "")).map (fun p =>
      ⟨p.1.sloka_index, p.1.scripture_name, p.1.input_sloka, p.1.english_meaning,
        p.1.keywords, p.2, get_bhashya_references db p.1.sloka_index p.1.scripture_name⟩)

/-- C3: for every channel, if embedding the query fails — empty or
whitespace-only input, or provider error (both make `get_embeddings` return
`None`) — the search returns `[]`; the embedding is total, reflecting that
the Python wrapper catches every exception of this path. -/
theorem c3_embed_failure_empty (ch : Channel) (db : DB) (sim : Int → Int → Int)
    (provider : String → Option Int) (text : String) (top_n : Nat)
    (scripture_list : Option (List String))
    (h : get_embeddings provider text = none) :
    search_sloka_meaning_embeddings_top_n ch db sim provider text top_n scripture_list = [] := by
  unfold search_sloka_meaning_embeddings_top_n embSearchQuery
  rw [h]
  by_cases hf : db.fail
  · rw [if_pos hf]
  · rw [if_neg hf]

/-- C3 witness: a whitespace-only query on the English channel returns `[]`
even though a matching row exists in the store. -/
theorem c3_witness :
    get_embeddings (fun _ => some 7) "   " = none ∧
    search_sloka_meaning_embeddings_top_n .english
      ⟨false, [], [], [], [], [⟨"KRISHNA_BG_02_47", "gita", "s", "m", "k", "english", 3⟩],
        [], [], [], [], []⟩
      (fun a b => a * b) (fun _ => some 7) "   " 5 none = [] :=
  ⟨rfl, c3_embed_failure_empty .english
      ⟨false, [], [], [], [], [⟨"KRISHNA_BG_02_47", "gita", "s", "m", "k", "english", 3⟩],
        [], [], [], [], []⟩
      (fun a b => a * b) (fun _ => some 7) "   " 5 none rfl⟩

/-- C4 as frozen is refuted by an empty scripture filter list: Python's
truthiness test `if scripture_list:` treats `[]` as "no filter", so a search
with `scripture_list=[]` returns candidates whose `scripture_name` is not a
member of the (empty) filter list. -/
theorem c4_counterexample :
    (search_sloka_meaning_embeddings_top_n .english
        ⟨false, [], [], [], [], [⟨"KRISHNA_BG_02_47", "gita", "s", "m", "k", "english", 3⟩],
          [], [], [], [], []⟩
        (fun a b => a * b) (fun _ => some 1) "what is dharma" 5 (some [])).map
      (fun c => c.scripture_name) = ["gita"] ∧
    ("gita" : String) ∉ ([] : List String) := by
  exact ⟨rfl, by simp⟩

/-- C4 (amended): for every channel search with any query text, requested
`top_n` and a NONEMPTY scripture filter list, the output has at most
`min(top_n, 50)` candidates, every candidate's `scripture_name` is a member
of the filter list (case-sensitive), and candidates are ordered by
non-increasing similarity score.  (With `scripture_list=[]` the filter is
dropped entirely; with `None` all scriptures are searched.) -/
theorem c4_search_bounds_amended (ch : Channel) (db : DB) (sim : Int → Int → Int)
    (provider : String → Option Int) (text : String) (top_n : Nat)
    (l : List String) (hl : l ≠ []) :
    (search_sloka_meaning_embeddings_top_n ch db sim provider text top_n (some l)).length ≤
      min top_n MAX_RESULTS_LIMIT ∧
    (∀ c ∈ search_sloka_meaning_embeddings_top_n ch db sim provider text top_n (some l),
      c.scripture_name ∈ l) ∧
    (search_sloka_meaning_embeddings_top_n ch db sim provider text top_n (some l)).Pairwise
      (fun a b => b.score ≤ a.score) := by
  unfold search_sloka_meaning_embeddings_top_n
  cases hq : embSearchQuery db (channelTable db ch) (channelContentType ch)
      (get_embeddings provider text) sim (some l) (min top_n MAX_RESULTS_LIMIT) with
  | error e =>
    refine ⟨Nat.zero_le _, ?_, List.Pairwise.nil⟩
    intro c hc
    simp at hc
  | ok rows =>
    -- recover what `rows` is from the query model
    have hrows : rows = List.take (min top_n MAX_RESULTS_LIMIT)
        (sortOrd (fun a b : EmbRow × Int => decide (b.2 ≤ a.2))
          (List.map (fun r => (r, sim r.embedding ((get_embeddings provider text).getD 0)))
            (List.filter
              (fun r => r.content_type = channelContentType ch &&
                matchesScriptureFilter (some l) r.scripture_name)
              (channelTable db ch)))) := by
      unfold embSearchQuery at hq
      by_cases hf : db.fail
      · rw [if_pos hf] at hq; cases hq
      · rw [if_neg hf] at hq
        cases hemb : get_embeddings provider text with
        | none => rw [hemb] at hq; cases hq
        | some v =>
          rw [hemb] at hq
          injection hq with h
          rw [← h]
          rfl
    constructor
    · -- length bound
      rw [List.length_map]
      calc (rows.filter (fun p => p.1.sloka_index ≠ "")).length
          ≤ rows.length := List.length_filter_le _ _
        _ ≤ min top_n MAX_RESULTS_LIMIT := by
            rw [hrows]
            exact List.length_take_le _ _
    constructor
    · -- scripture filter
      intro c hc
      rcases List.mem_map.mp hc with ⟨p, hp, hpc⟩
      have hpr : p ∈ rows := (List.mem_filter.mp hp).1
      rw [hrows] at hpr
      have hps := List.take_subset _ _ hpr
      rw [mem_sortOrd] at hps
      rcases List.mem_map.mp hps with ⟨r, hr, hrp⟩
      have hfilt := (List.mem_filter.mp hr).2
      rw [Bool.and_eq_true] at hfilt
      have hmf : (if l.isEmpty = true then true else l.contains r.scripture_name) = true :=
        hfilt.2
      rw [if_neg (by
        intro hemp
        exact hl (List.isEmpty_iff.mp hemp))] at hmf
      have hmem : r.scripture_name ∈ l := by simpa using hmf
      rw [← hpc]
      have hsn : p.1.scripture_name = r.scripture_name := by rw [← hrp]
      show p.1.scripture_name ∈ l
      rw [hsn]
      exact hmem
    · -- sortedness
      have hsorted : rows.Pairwise
          (fun a b : EmbRow × Int => decide (b.2 ≤ a.2) = true) := by
        rw [hrows]
        refine List.Pairwise.sublist (List.take_sublist _ _) ?_
        exact sortOrd_pairwise (fun a b : EmbRow × Int => decide (b.2 ≤ a.2))
          (fun a b => by
            rcases Int.le_total b.2 a.2 with h | h
            · exact Or.inl (decide_eq_true h)
            · exact Or.inr (decide_eq_true h))
          (fun a b c hab hbc => decide_eq_true
            (Int.le_trans (of_decide_eq_true hbc) (of_decide_eq_true hab)))
          _
      rw [List.pairwise_map]
      refine (hsorted.filter _).imp ?_
      intro a b h
      exact of_decide_eq_true h

/-- A one-row English-channel store used by concrete instantiations. -/
def enDB : DB :=
  ⟨false, [], [], [], [], [⟨"KRISHNA_BG_02_47", "gita", "s", "m", "k", "english", 3⟩],
    [], [], [], [], []⟩

/-- Product similarity stand-in for the abstract cosine score. -/
def mulSim : Int → Int → Int := fun a b => a * b

/-- A provider that always embeds successfully. -/
def oneProvider : String → Option Int := fun _ => some 1

/-- C4 witness: the amended bound/filter/order property at the spec's own
scenario (English channel, `scripture_list=["gita"]`, `top_n=5`). -/
theorem c4_witness :
    (["gita"] : List String) ≠ [] ∧
    ((search_sloka_meaning_embeddings_top_n .english enDB mulSim oneProvider
        "what is dharma" 5 (some ["gita"])).length ≤ min 5 MAX_RESULTS_LIMIT ∧
      (∀ c ∈ search_sloka_meaning_embeddings_top_n .english enDB mulSim oneProvider
          "what is dharma" 5 (some ["gita"]), c.scripture_name ∈ ["gita"]) ∧
      (search_sloka_meaning_embeddings_top_n .english enDB mulSim oneProvider
        "what is dharma" 5 (some ["gita"])).Pairwise (fun a b => b.score ≤ a.score)) :=
  ⟨by decide, c4_search_bounds_amended .english enDB mulSim oneProvider
    "what is dharma" 5 ["gita"] (by decide)⟩

/-! ## Candidate Reranker

Source: `misctools.rerank_sloka_candidates` (lines 247-323).  The three
Python dicts `sloka_frequency` / `sloka_details` / `sloka_sources`, always
updated together under the same key, are modelled as one insertion-ordered
association list of `MEntry` (Python dicts preserve insertion order, and
`merged` iterates them in that order). -/

/-- An input candidate dict (fields read by `ingest`). -/
structure Cand where
  sloka_index : String
  scripture_name : String
  context_text : String
deriving Repr, DecidableEq

/-- Merged per-key state: `sloka_frequency[key]`, `sloka_sources[key]` and
the `sloka_details[key]` snapshot taken at first appearance. -/
structure MEntry where
  key : String
  freq : Nat
  sources : List String
  d_sloka_index : String
  d_scripture_name : String
  d_context : String
deriving Repr, DecidableEq

/-- The fields the enrichment step copies out of `meaning_fetcher`'s first
row (`full[0]`). -/
structure MeaningFields where
  input_sloka : String
  english_meaning : String
  anvaya_ordered : String
  sanskrit_english_anvaya_combination : String
  narrator : String
  inferred_speaker_from_sloka : String
  entity_triplet_list : String
  concept_triplet_list : String
deriving Repr, DecidableEq

/-- One ranked output dict.  The eight enrichment keys added by `r.update`
are grouped into `enrichment` (`none` before enrichment and when the fetch
returns no rows). -/
structure RankedEntry where
  sloka_index : String
  scripture_name : String
  score : Nat
  frequency : Nat
  contributing_agents : List String
  num_contributing_agents : Nat
  context_text : String
  enrichment : Option MeaningFields
deriving Repr, DecidableEq

/-- `key = f"{si}|{sc}"`. -/
def keyOf (si sc : String) : String := si ++ "|" ++ sc

/-- Update-or-append for one ingested candidate under key `k`. -/
def bump : List MEntry → String → String → Cand → List MEntry
  | [], k, label, it => [⟨k, 1, [label], it.sloka_index, it.scripture_name, it.context_text⟩]
  | e :: rest, k, label, it =>
    if e.key = k then
      ⟨e.key, e.freq + 1, e.sources ++ [label], e.d_sloka_index, e.d_scripture_name,
        e.d_context⟩ :: rest
    else e :: bump rest k label it

/-- One iteration of the `ingest` loop: non-dict items are not modelled
(callers pass dict rows); a falsy `sloka_index` is skipped. -/
def ingest1 (label : String) (s : List MEntry) (it : Cand) : List MEntry :=
  if it.sloka_index = "" then s
  else bump s (keyOf it.sloka_index it.scripture_name) label it

/-- `ingest(items, label)`. -/
def ingest (s : List MEntry) (items : List Cand) (label : String) : List MEntry :=
  items.foldl (ingest1 label) s

/-- State after the three `ingest` calls. -/
def rerankState (en sa gl : List Cand) : List MEntry :=
  ingest (ingest (ingest [] en "english") sa "sanskrit") gl "glossary"

/-- One `merged` output dict built from a state entry. -/
def mkRanked (e : MEntry) : RankedEntry :=
  ⟨e.d_sloka_index, e.d_scripture_name, e.freq * 10, e.freq, e.sources, e.sources.length,
    e.d_context, none⟩

/-- `merged`, then `merged.sort(key=lambda x: x["score"], reverse=True)`
(stable), then `merged[:top_n]`. -/
def rerankTrimmed (en sa gl : List Cand) (top_n : Nat) : List RankedEntry :=
  (sortOrd (fun a b : RankedEntry => decide (b.score ≤ a.score))
    ((rerankState en sa gl).map mkRanked)).take top_n

/-- The per-entry enrichment step (`try: full = meaning_fetcher(...)`,
errors caught; the fetcher is total in the model). -/
def enrich1 (f : String → String → List MeaningFields) (r : RankedEntry) : RankedEntry :=
  match f r.sloka_index r.scripture_name with
  | [] => r
  | m :: _ => { r with enrichment := some m }

/-- `rerank_sloka_candidates`. -/
def rerank_sloka_candidates (agent_en_sloka_list agent_sa_sloka_list : List Cand)
    (agent_glossary_sloka_list : List Cand) (top_n : Nat)
    (meaning_fetcher : Option (String → String → List MeaningFields)) : List RankedEntry :=
  match meaning_fetcher with
  | none => rerankTrimmed agent_en_sloka_list agent_sa_sloka_list agent_glossary_sloka_list top_n
  | some f =>
    (rerankTrimmed agent_en_sloka_list agent_sa_sloka_list agent_glossary_sloka_list top_n).map
      (enrich1 f)

/-- Entry lookup by key (`key in sloka_frequency`). -/
def lookupEntry (s : List MEntry) (k : String) : Option MEntry :=
  s.find? (fun e => e.key = k)

/-- `sloka_frequency.get(key, 0)`. -/
def freqAt (s : List MEntry) (k : String) : Nat :=
  match lookupEntry s k with
  | some e => e.freq
  | none => 0

/-- `sloka_sources.get(key, [])`. -/
def srcsAt (s : List MEntry) (k : String) : List String :=
  match lookupEntry s k with
  | some e => e.sources
  | none => []

/-- Number of valid occurrences of key `k` in one channel list. -/
def countKey (items : List Cand) (k : String) : Nat :=
  (items.filter
    (fun it => it.sloka_index ≠ "" && keyOf it.sloka_index it.scripture_name = k)).length

/-- First-appearance key accumulation (`dict` key order). -/
def insertKey (ks : List String) (k : String) : List String :=
  if k ∈ ks then ks else ks ++ [k]

/-- Keys contributed by one channel list, in first-appearance order. -/
def keyFold (ks : List String) (items : List Cand) : List String :=
  items.foldl
    (fun ks it =>
      if it.sloka_index = "" then ks else insertKey ks (keyOf it.sloka_index it.scripture_name))
    ks

/-- The number of merged unique keys of the three channel lists. -/
def uniqueKeyCount (en sa gl : List Cand) : Nat :=
  (keyFold (keyFold (keyFold [] en) sa) gl).length

/-- Number of distinct channels in which key `k` appears. -/
def channelsContaining (en sa gl : List Cand) (k : String) : Nat :=
  (if countKey en k ≠ 0 then 1 else 0) + (if countKey sa k ≠ 0 then 1 else 0) +
    (if countKey gl k ≠ 0 then 1 else 0)

theorem lookupEntry_cons_pos (e : MEntry) (rest : List MEntry) (k : String)
    (h : e.key = k) : lookupEntry (e :: rest) k = some e := by
  unfold lookupEntry
  simp only [List.find?]
  rw [show decide (e.key = k) = true from decide_eq_true h]

theorem lookupEntry_cons_neg (e : MEntry) (rest : List MEntry) (k : String)
    (h : ¬ (e.key = k)) : lookupEntry (e :: rest) k = lookupEntry rest k := by
  unfold lookupEntry
  simp only [List.find?]
  rw [show decide (e.key = k) = false from decide_eq_false h]

/-- Master lemma: how `bump` changes the lookup table. -/
theorem bump_lookup (s : List MEntry) (k label : String) (it : Cand) (k' : String) :
    lookupEntry (bump s k label it) k' =
      if k' = k then
        match lookupEntry s k with
        | some e => some ⟨e.key, e.freq + 1, e.sources ++ [label], e.d_sloka_index,
            e.d_scripture_name, e.d_context⟩
        | none => some ⟨k, 1, [label], it.sloka_index, it.scripture_name, it.context_text⟩
      else lookupEntry s k' := by
  induction s with
  | nil =>
    by_cases hk : k' = k
    · subst hk
      rw [if_pos rfl]
      unfold bump
      rw [lookupEntry_cons_pos _ _ _ rfl]
      rfl
    · rw [if_neg hk]
      unfold bump
      rw [lookupEntry_cons_neg _ _ _ (by
        intro h
        exact hk h.symm)]
  | cons e rest ih =>
    unfold bump
    by_cases he : e.key = k
    · rw [if_pos he]
      by_cases hk : k' = k
      · subst hk
        rw [if_pos rfl, lookupEntry_cons_pos e rest k' he,
          lookupEntry_cons_pos ⟨e.key, e.freq + 1, e.sources ++ [label], e.d_sloka_index,
            e.d_scripture_name, e.d_context⟩ rest k' he]
      · rw [if_neg hk]
        by_cases hek : e.key = k'
        · exact absurd (he.symm.trans hek).symm hk
        · rw [lookupEntry_cons_neg ⟨e.key, e.freq + 1, e.sources ++ [label], e.d_sloka_index,
              e.d_scripture_name, e.d_context⟩ rest k' hek,
            lookupEntry_cons_neg e rest k' hek]
    · rw [if_neg he]
      by_cases hek : e.key = k'
      · have hk : ¬ (k' = k) := by
          intro h
          exact he (hek.trans h)
        rw [if_neg hk, lookupEntry_cons_pos _ _ _ hek, lookupEntry_cons_pos _ _ _ hek]
      · rw [lookupEntry_cons_neg _ _ _ hek, ih, lookupEntry_cons_neg e rest k' hek]
        by_cases hk : k' = k
        · subst hk
          rw [if_pos rfl, if_pos rfl, lookupEntry_cons_neg e rest k' hek]
        · rw [if_neg hk, if_neg hk]

/-- Effect of `bump` on stored frequencies. -/
theorem freqAt_bump (s : List MEntry) (k label : String) (it : Cand) (k' : String) :
    freqAt (bump s k label it) k' = freqAt s k' + (if k' = k then 1 else 0) := by
  unfold freqAt
  rw [bump_lookup]
  by_cases hk : k' = k
  · subst hk
    rw [if_pos rfl, if_pos rfl]
    cases lookupEntry s k' with
    | some e => rfl
    | none => rfl
  · rw [if_neg hk, if_neg hk]
    exact (Nat.add_zero _).symm

/-- Effect of `bump` on stored source labels. -/
theorem srcsAt_bump (s : List MEntry) (k label : String) (it : Cand) (k' : String) :
    srcsAt (bump s k label it) k' = srcsAt s k' ++ (if k' = k then [label] else []) := by
  unfold srcsAt
  rw [bump_lookup]
  by_cases hk : k' = k
  · subst hk
    rw [if_pos rfl, if_pos rfl]
    cases lookupEntry s k' with
    | some e => rfl
    | none => rfl
  · rw [if_neg hk, if_neg hk, List.append_nil]

/-- Effect of `bump` on the key sequence. -/
theorem keysOf_bump (s : List MEntry) (k label : String) (it : Cand) :
    (bump s k label it).map (fun e => e.key) = insertKey (s.map (fun e => e.key)) k := by
  induction s with
  | nil => rfl
  | cons e rest ih =>
    unfold bump insertKey
    by_cases he : e.key = k
    · rw [if_pos he]
      rw [if_pos (by
        show k ∈ e.key :: rest.map (fun e => e.key)
        rw [List.mem_cons]
        exact Or.inl he.symm)]
      rfl
    · rw [if_neg he]
      show e.key :: (bump rest k label it).map (fun e => e.key) = _
      rw [ih]
      unfold insertKey
      by_cases hmem : k ∈ rest.map (fun e => e.key)
      · rw [if_pos hmem, if_pos (by
          show k ∈ e.key :: rest.map (fun e => e.key)
          rw [List.mem_cons]
          exact Or.inr hmem)]
        rfl
      · rw [if_neg hmem, if_neg (by
          show ¬ (k ∈ e.key :: rest.map (fun e => e.key))
          rw [List.mem_cons]
          intro hcon
          rcases hcon with h | h
          · exact he h.symm
          · exact hmem h)]
        rfl

theorem countKey_cons (it : Cand) (rest : List Cand) (k : String) :
    countKey (it :: rest) k =
      (if it.sloka_index ≠ "" ∧ keyOf it.sloka_index it.scripture_name = k then 1 else 0) +
        countKey rest k := by
  unfold countKey
  simp only [List.filter]
  by_cases h1 : it.sloka_index = ""
  · simp [h1]
  · by_cases h2 : keyOf it.sloka_index it.scripture_name = k
    · simp [h1, h2]
      omega
    · simp [h1, h2]

theorem freqAt_ingest (items : List Cand) : ∀ (s : List MEntry) (label k : String),
    freqAt (ingest s items label) k = freqAt s k + countKey items k := by
  induction items with
  | nil =>
    intro s label k
    show freqAt s k = freqAt s k + countKey [] k
    have h0 : countKey [] k = 0 := rfl
    rw [h0, Nat.add_zero]
  | cons it rest ih =>
    intro s label k
    show freqAt (ingest (ingest1 label s it) rest label) k = _
    rw [ih, countKey_cons]
    unfold ingest1
    by_cases hv : it.sloka_index = ""
    · rw [if_pos hv]
      rw [if_neg (by
        intro hcon
        exact hcon.1 hv)]
      omega
    · rw [if_neg hv, freqAt_bump]
      by_cases hk : k = keyOf it.sloka_index it.scripture_name
      · rw [if_pos hk, if_pos ⟨hv, hk.symm⟩]
        omega
      · rw [if_neg hk, if_neg (by
          intro hcon
          exact hk hcon.2.symm)]
        omega

theorem srcsAt_ingest (items : List Cand) : ∀ (s : List MEntry) (label k : String),
    srcsAt (ingest s items label) k =
      srcsAt s k ++ List.replicate (countKey items k) label := by
  induction items with
  | nil =>
    intro s label k
    show srcsAt s k = srcsAt s k ++ List.replicate (countKey [] k) label
    have h0 : countKey [] k = 0 := rfl
    rw [h0, List.replicate_zero, List.append_nil]
  | cons it rest ih =>
    intro s label k
    show srcsAt (ingest (ingest1 label s it) rest label) k = _
    rw [ih, countKey_cons]
    unfold ingest1
    by_cases hv : it.sloka_index = ""
    · rw [if_pos hv]
      rw [if_neg (by
        intro hcon
        exact hcon.1 hv), Nat.zero_add]
    · rw [if_neg hv, srcsAt_bump]
      by_cases hk : k = keyOf it.sloka_index it.scripture_name
      · rw [if_pos hk, if_pos ⟨hv, hk.symm⟩]
        rw [List.append_assoc]
        congr 1
        show [label] ++ List.replicate (countKey rest k) label = _
        rw [List.singleton_append, ← List.replicate_succ]
        have hcomm : countKey rest k + 1 = 1 + countKey rest k := by omega
        rw [hcomm]
      · rw [if_neg hk, if_neg (by
          intro hcon
          exact hk hcon.2.symm), List.append_nil, Nat.zero_add]

theorem keysOf_ingest (items : List Cand) : ∀ (s : List MEntry) (label : String),
    (ingest s items label).map (fun e => e.key) =
      keyFold (s.map (fun e => e.key)) items := by
  induction items with
  | nil => intro s label; rfl
  | cons it rest ih =>
    intro s label
    show (ingest (ingest1 label s it) rest label).map (fun e => e.key) = _
    rw [ih]
    have hstep : (ingest1 label s it).map (fun e => e.key) =
        (if it.sloka_index = "" then s.map (fun e => e.key)
         else insertKey (s.map (fun e => e.key)) (keyOf it.sloka_index it.scripture_name)) := by
      unfold ingest1
      by_cases hv : it.sloka_index = ""
      · rw [if_pos hv, if_pos hv]
      · rw [if_neg hv, if_neg hv, keysOf_bump]
    rw [hstep]
    show _ = keyFold (s.map (fun e => e.key)) (it :: rest)
    unfold keyFold
    rw [List.foldl_cons]

/-- Well-formedness of one merged entry: counted at least once, label list
in sync with the counter, key rebuilt from the detail fields. -/
def WfEntry (e : MEntry) : Prop :=
  1 ≤ e.freq ∧ e.freq = e.sources.length ∧ e.key = keyOf e.d_sloka_index e.d_scripture_name

theorem wf_bump (s : List MEntry) (k label : String) (it : Cand)
    (hk : k = keyOf it.sloka_index it.scripture_name)
    (h : ∀ e ∈ s, WfEntry e) : ∀ e ∈ bump s k label it, WfEntry e := by
  induction s with
  | nil =>
    intro e he
    rcases List.mem_cons.mp he with he | he
    · subst he
      refine ⟨Nat.le_refl 1, rfl, hk⟩
    · cases he
  | cons e0 rest ih =>
    unfold bump
    by_cases he0 : e0.key = k
    · rw [if_pos he0]
      intro e he
      rcases List.mem_cons.mp he with he | he
      · subst he
        rcases h e0 (List.mem_cons_self e0 rest) with ⟨h1, h2, h3⟩
        refine ⟨Nat.le_succ_of_le h1, ?_, h3⟩
        show e0.freq + 1 = (e0.sources ++ [label]).length
        rw [List.length_append, h2]
        rfl
      · exact h e (List.mem_cons_of_mem e0 he)
    · rw [if_neg he0]
      intro e he
      rcases List.mem_cons.mp he with he | he
      · subst he
        exact h e (List.mem_cons_self e rest)
      · exact ih (fun e' he' => h e' (List.mem_cons_of_mem e0 he')) e he

theorem wf_ingest (items : List Cand) : ∀ (s : List MEntry) (label : String),
    (∀ e ∈ s, WfEntry e) → ∀ e ∈ ingest s items label, WfEntry e := by
  induction items with
  | nil => intro s label h; exact h
  | cons it rest ih =>
    intro s label h
    show ∀ e ∈ ingest (ingest1 label s it) rest label, WfEntry e
    apply ih
    unfold ingest1
    by_cases hv : it.sloka_index = ""
    · rw [if_pos hv]; exact h
    · rw [if_neg hv]
      exact wf_bump s _ label it rfl h

theorem nodup_bump (s : List MEntry) (k label : String) (it : Cand)
    (h : (s.map (fun e => e.key)).Nodup) :
    ((bump s k label it).map (fun e => e.key)).Nodup := by
  rw [keysOf_bump]
  unfold insertKey
  by_cases hmem : k ∈ s.map (fun e => e.key)
  · rw [if_pos hmem]; exact h
  · rw [if_neg hmem]
    rw [List.nodup_append]
    exact ⟨h, List.nodup_singleton k, by
      intro a ha hb
      rw [List.mem_singleton] at hb
      exact hmem (hb ▸ ha)⟩

theorem nodup_ingest (items : List Cand) : ∀ (s : List MEntry) (label : String),
    (s.map (fun e => e.key)).Nodup →
    ((ingest s items label).map (fun e => e.key)).Nodup := by
  induction items with
  | nil => intro s label h; exact h
  | cons it rest ih =>
    intro s label h
    show ((ingest (ingest1 label s it) rest label).map (fun e => e.key)).Nodup
    apply ih
    unfold ingest1
    by_cases hv : it.sloka_index = ""
    · rw [if_pos hv]; exact h
    · rw [if_neg hv]
      exact nodup_bump s _ label it h

theorem lookup_of_mem_nodup : ∀ (s : List MEntry),
    (s.map (fun e => e.key)).Nodup → ∀ e ∈ s, lookupEntry s e.key = some e := by
  intro s
  induction s with
  | nil => intro _ e he; cases he
  | cons x rest ih =>
    intro hnd e he
    have hnd' := hnd
    rw [List.map_cons, List.nodup_cons] at hnd'
    rcases List.mem_cons.mp he with he | he
    · subst he
      exact lookupEntry_cons_pos e rest e.key rfl
    · have hx : ¬ (x.key = e.key) := by
        intro hcon
        exact hnd'.1 (hcon ▸ List.mem_map_of_mem (fun e => e.key) he)
      rw [lookupEntry_cons_neg x rest e.key hx]
      exact ih hnd'.2 e he

/-- Complete characterization of a merged state entry: its counter is the
total number of valid occurrences of its key across the three lists and its
label list is the per-channel replication, in ingest order. -/
theorem state_entry_char (en sa gl : List Cand) (e : MEntry)
    (he : e ∈ rerankState en sa gl) :
    e.freq = countKey en e.key + countKey sa e.key + countKey gl e.key ∧
    e.sources = (List.replicate (countKey en e.key) "english" ++
      List.replicate (countKey sa e.key) "sanskrit") ++
      List.replicate (countKey gl e.key) "glossary" ∧
    WfEntry e := by
  have hnodup : ((rerankState en sa gl).map (fun e => e.key)).Nodup := by
    unfold rerankState
    exact nodup_ingest gl _ "glossary" (nodup_ingest sa _ "sanskrit"
      (nodup_ingest en [] "english" List.nodup_nil))
  have hwf : WfEntry e := by
    refine wf_ingest gl _ "glossary" ?_ e he
    refine wf_ingest sa _ "sanskrit" ?_
    refine wf_ingest en [] "english" ?_
    intro e' he'
    cases he'
  have hlook : lookupEntry (rerankState en sa gl) e.key = some e :=
    lookup_of_mem_nodup _ hnodup e he
  constructor
  · have hfr : freqAt (rerankState en sa gl) e.key = e.freq := by
      unfold freqAt
      rw [hlook]
    rw [← hfr]
    unfold rerankState
    rw [freqAt_ingest, freqAt_ingest, freqAt_ingest]
    have h0 : freqAt [] e.key = 0 := rfl
    rw [h0]
    omega
  constructor
  · have hsr : srcsAt (rerankState en sa gl) e.key = e.sources := by
      unfold srcsAt
      rw [hlook]
    rw [← hsr]
    unfold rerankState
    rw [srcsAt_ingest, srcsAt_ingest, srcsAt_ingest]
    have h0 : srcsAt [] e.key = [] := rfl
    rw [h0, List.nil_append]
  · exact hwf

/-- The enrichment step never touches the ranking fields. -/
theorem enrich1_fields (f : String → String → List MeaningFields) (r : RankedEntry) :
    (enrich1 f r).sloka_index = r.sloka_index ∧
    (enrich1 f r).scripture_name = r.scripture_name ∧
    (enrich1 f r).score = r.score ∧
    (enrich1 f r).frequency = r.frequency ∧
    (enrich1 f r).contributing_agents = r.contributing_agents := by
  unfold enrich1
  cases f r.sloka_index r.scripture_name with
  | nil => exact ⟨rfl, rfl, rfl, rfl, rfl⟩
  | cons m rest => exact ⟨rfl, rfl, rfl, rfl, rfl⟩

/-- Any output entry of the reranker projects onto a merged state entry. -/
theorem mem_rerank_core (en sa gl : List Cand) (top_n : Nat)
    (fetcher : Option (String → String → List MeaningFields)) (r : RankedEntry)
    (hr : r ∈ rerank_sloka_candidates en sa gl top_n fetcher) :
    ∃ e ∈ rerankState en sa gl,
      r.sloka_index = e.d_sloka_index ∧ r.scripture_name = e.d_scripture_name ∧
      r.score = e.freq * 10 ∧ r.frequency = e.freq ∧ r.contributing_agents = e.sources := by
  have htrim : ∀ r' ∈ rerankTrimmed en sa gl top_n, ∃ e ∈ rerankState en sa gl,
      r' = mkRanked e := by
    intro r' hr'
    unfold rerankTrimmed at hr'
    have hsrt := List.take_subset _ _ hr'
    rw [mem_sortOrd] at hsrt
    rcases List.mem_map.mp hsrt with ⟨e, hes, hre⟩
    exact ⟨e, hes, hre.symm⟩
  unfold rerank_sloka_candidates at hr
  cases fetcher with
  | none =>
    rcases htrim r hr with ⟨e, hes, hre⟩
    rw [hre]
    exact ⟨e, hes, rfl, rfl, rfl, rfl, rfl⟩
  | some f =>
    rcases List.mem_map.mp hr with ⟨r', hr', hrr⟩
    rcases htrim r' hr' with ⟨e, hes, hre⟩
    rcases enrich1_fields f r' with ⟨h1, h2, h3, h4, h5⟩
    rw [← hrr, h1, h2, h3, h4, h5, hre]
    exact ⟨e, hes, rfl, rfl, rfl, rfl, rfl⟩

/-- Reranker output is ordered by non-increasing composite score. -/
theorem rerank_sorted (en sa gl : List Cand) (top_n : Nat)
    (fetcher : Option (String → String → List MeaningFields)) :
    (rerank_sloka_candidates en sa gl top_n fetcher).Pairwise
      (fun a b => b.score ≤ a.score) := by
  have htrim : (rerankTrimmed en sa gl top_n).Pairwise (fun a b => b.score ≤ a.score) := by
    unfold rerankTrimmed
    refine List.Pairwise.imp (fun h => of_decide_eq_true h) ?_
    refine List.Pairwise.sublist (List.take_sublist _ _) ?_
    exact sortOrd_pairwise (fun a b : RankedEntry => decide (b.score ≤ a.score))
      (fun a b => by
        rcases Nat.le_total b.score a.score with h | h
        · exact Or.inl (decide_eq_true h)
        · exact Or.inr (decide_eq_true h))
      (fun a b c hab hbc => decide_eq_true
        (Nat.le_trans (of_decide_eq_true hbc) (of_decide_eq_true hab)))
      _
  unfold rerank_sloka_candidates
  cases fetcher with
  | none => exact htrim
  | some f =>
    rw [List.pairwise_map]
    refine htrim.imp ?_
    intro a b h
    rw [(enrich1_fields f a).2.2.1, (enrich1_fields f b).2.2.1]
    exact h

/-- `countKey` is at most one for a channel list without duplicate keys
among its valid candidates. -/
theorem countKey_le_one (items : List Cand)
    (h : ((items.filter (fun it => it.sloka_index ≠ "")).map
        (fun it => keyOf it.sloka_index it.scripture_name)).Nodup) (k : String) :
    countKey items k ≤ 1 := by
  induction items with
  | nil => exact Nat.zero_le 1
  | cons it rest ih =>
    rw [countKey_cons]
    by_cases hv : it.sloka_index = ""
    · rw [if_neg (by
        intro hcon
        exact hcon.1 hv), Nat.zero_add]
      apply ih
      have hfe : (it :: rest).filter (fun it => it.sloka_index ≠ "") =
          rest.filter (fun it => it.sloka_index ≠ "") := by
        simp [List.filter, hv]
      rw [hfe] at h
      exact h
    · have hfe : (it :: rest).filter (fun it => it.sloka_index ≠ "") =
          it :: rest.filter (fun it => it.sloka_index ≠ "") := by
        simp [List.filter, hv]
      rw [hfe, List.map_cons, List.nodup_cons] at h
      by_cases hk : keyOf it.sloka_index it.scripture_name = k
      · rw [if_pos ⟨hv, hk⟩]
        have hzero : countKey rest k = 0 := by
          by_contra hne
          have hpos : 0 < (rest.filter (fun it => it.sloka_index ≠ "" &&
              keyOf it.sloka_index it.scripture_name = k)).length := by
            unfold countKey at hne
            omega
          rcases List.exists_mem_of_length_pos hpos with ⟨x, hx⟩
          rcases List.mem_filter.mp hx with ⟨hxr, hxp⟩
          rw [Bool.and_eq_true] at hxp
          have hxv : x.sloka_index ≠ "" := by
            simpa using hxp.1
          have hxk : keyOf x.sloka_index x.scripture_name = k := by
            simpa using hxp.2
          refine h.1 ?_
          rw [hk]
          rw [← hxk]
          exact List.mem_map_of_mem _ (List.mem_filter.mpr ⟨hxr, by simpa using hxv⟩)
        omega
      · rw [if_neg (by
          intro hcon
          exact hk hcon.2), Nat.zero_add]
        exact ih h.2

/-- C5 as frozen is refuted by duplicate keys inside one channel list: the
ingest loop counts occurrences, not distinct channels, so four copies of the
same candidate in the English list produce `frequency = 4 > 3`. -/
theorem c5_counterexample :
    ((rerank_sloka_candidates
        [⟨"KRISHNA_BG_02_47", "gita", ""⟩, ⟨"KRISHNA_BG_02_47", "gita", ""⟩,
         ⟨"KRISHNA_BG_02_47", "gita", ""⟩, ⟨"KRISHNA_BG_02_47", "gita", ""⟩]
        [] [] 10 none).map (fun r => r.frequency)) = [4] ∧ ¬ (4 ≤ 3) :=
  ⟨rfl, by decide⟩

/-- C5 (amended): when each channel list contains at most one valid
candidate per merge key, every reranked entry satisfies
`frequency = |contributing_agents|`, `1 ≤ frequency ≤ 3`, `frequency` equals
the number of distinct channels containing the entry's key, and
`score = frequency × 10`; consequently an entry present in all three
channels (frequency 3) always precedes an entry present in exactly one
(frequency 1), regardless of any channel's raw similarity value (which the
reranker discards). -/
theorem c5_rerank_invariants_amended (en sa gl : List Cand) (top_n : Nat)
    (fetcher : Option (String → String → List MeaningFields))
    (hEn : ((en.filter (fun it => it.sloka_index ≠ "")).map
      (fun it => keyOf it.sloka_index it.scripture_name)).Nodup)
    (hSa : ((sa.filter (fun it => it.sloka_index ≠ "")).map
      (fun it => keyOf it.sloka_index it.scripture_name)).Nodup)
    (hGl : ((gl.filter (fun it => it.sloka_index ≠ "")).map
      (fun it => keyOf it.sloka_index it.scripture_name)).Nodup) :
    (∀ r ∈ rerank_sloka_candidates en sa gl top_n fetcher,
      r.frequency = r.contributing_agents.length ∧
      1 ≤ r.frequency ∧ r.frequency ≤ 3 ∧
      r.frequency = channelsContaining en sa gl (keyOf r.sloka_index r.scripture_name) ∧
      r.score = r.frequency * 10) ∧
    (∀ (i j : Fin (rerank_sloka_candidates en sa gl top_n fetcher).length),
      ((rerank_sloka_candidates en sa gl top_n fetcher).get i).frequency = 3 →
      ((rerank_sloka_candidates en sa gl top_n fetcher).get j).frequency = 1 → i < j) := by
  have hmain : ∀ r ∈ rerank_sloka_candidates en sa gl top_n fetcher,
      r.frequency = r.contributing_agents.length ∧
      1 ≤ r.frequency ∧ r.frequency ≤ 3 ∧
      r.frequency = channelsContaining en sa gl (keyOf r.sloka_index r.scripture_name) ∧
      r.score = r.frequency * 10 := by
    intro r hr
    rcases mem_rerank_core en sa gl top_n fetcher r hr with ⟨e, hes, h1, h2, h3, h4, h5⟩
    rcases state_entry_char en sa gl e hes with ⟨hfreq, _, hge1, hlen, hkey⟩
    have hEnle := countKey_le_one en hEn e.key
    have hSale := countKey_le_one sa hSa e.key
    have hGlle := countKey_le_one gl hGl e.key
    have hrkey : keyOf r.sloka_index r.scripture_name = e.key := by
      rw [h1, h2]
      exact hkey.symm
    have hind : ∀ {c : Nat}, c ≤ 1 → c = (if c ≠ 0 then 1 else 0) := by
      intro c hc
      by_cases h : c = 0
      · simp [h]
      · have : c = 1 := by omega
        simp [this]
    refine ⟨?_, ?_, ?_, ?_, ?_⟩
    · rw [h4, h5, hlen]
    · rw [h4]; exact hge1
    · rw [h4, hfreq]; omega
    · rw [h4, hrkey]
      unfold channelsContaining
      rw [← hind hEnle, ← hind hSale, ← hind hGlle]
      exact hfreq
    · rw [h3, h4]
  refine ⟨hmain, ?_⟩
  intro i j hi3 hj1
  have hpw := rerank_sorted en sa gl top_n fetcher
  rw [List.pairwise_iff_get] at hpw
  have hscore_i : ((rerank_sloka_candidates en sa gl top_n fetcher).get i).score = 30 := by
    have := (hmain _ (List.get_mem _ i.1 i.2)).2.2.2.2
    rw [this, hi3]
  have hscore_j : ((rerank_sloka_candidates en sa gl top_n fetcher).get j).score = 10 := by
    have := (hmain _ (List.get_mem _ j.1 j.2)).2.2.2.2
    rw [this, hj1]
  rcases lt_trichotomy i j with h | h | h
  · exact h
  · exfalso
    rw [h, hj1] at hi3
    cases hi3
  · exfalso
    have := hpw j i h
    rw [hscore_i, hscore_j] at this
    omega

/-- C5 witness: the amended invariants at a concrete two-channel agreement. -/
theorem c5_witness :
    ((([(⟨"A", "g", ""⟩ : Cand)].filter (fun it => it.sloka_index ≠ "")).map
      (fun it => keyOf it.sloka_index it.scripture_name)).Nodup) ∧
    ((∀ r ∈ rerank_sloka_candidates [⟨"A", "g", ""⟩] [⟨"A", "g", ""⟩] [] 10 none,
        r.frequency = r.contributing_agents.length ∧
        1 ≤ r.frequency ∧ r.frequency ≤ 3 ∧
        r.frequency = channelsContaining [⟨"A", "g", ""⟩] [⟨"A", "g", ""⟩] []
          (keyOf r.sloka_index r.scripture_name) ∧
        r.score = r.frequency * 10) ∧
      (∀ (i j : Fin (rerank_sloka_candidates [⟨"A", "g", ""⟩] [⟨"A", "g", ""⟩] [] 10
          none).length),
        ((rerank_sloka_candidates [⟨"A", "g", ""⟩] [⟨"A", "g", ""⟩] [] 10 none).get
          i).frequency = 3 →
        ((rerank_sloka_candidates [⟨"A", "g", ""⟩] [⟨"A", "g", ""⟩] [] 10 none).get
          j).frequency = 1 → i < j)) :=
  ⟨by decide, c5_rerank_invariants_amended [⟨"A", "g", ""⟩] [⟨"A", "g", ""⟩] [] 10 none
    (by decide) (by decide) (by decide)⟩

/-- C6 as frozen is refuted by the textual merge key `f"{si}|{sc}"`: the two
candidates `("a|b", "c")` and `("a", "b|c")` have different `sloka_index`
yet identical joined keys, so they are coalesced into a single ranked
entry. -/
theorem c6_counterexample :
    (rerank_sloka_candidates [⟨"a|b", "c", ""⟩] [⟨"a", "b|c", ""⟩] [] 10 none).length = 1 ∧
    ("a|b" : String) ≠ "a" :=
  ⟨rfl, by decide⟩

/-- C6 (amended): the reranker merges candidates by the joined textual key
`f"{sloka_index}|{scripture_name}"` — equal pairs always coalesce, and for
inputs whose fields avoid the separator this is exactly coalescing by the
`(sloka_index, scripture_name)` pair — the output carries pairwise-distinct
keys, and `rerank(lists, top_n=N)` returns exactly
`min(N, number of merged unique keys)` entries. -/
theorem c6_merge_key_amended (en sa gl : List Cand) (top_n : Nat)
    (fetcher : Option (String → String → List MeaningFields)) :
    ((rerank_sloka_candidates en sa gl top_n fetcher).map
      (fun r => keyOf r.sloka_index r.scripture_name)).Nodup ∧
    (rerank_sloka_candidates en sa gl top_n fetcher).length =
      min top_n (uniqueKeyCount en sa gl) := by
  have hwfall : ∀ e ∈ rerankState en sa gl, WfEntry e :=
    fun e he => (state_entry_char en sa gl e he).2.2
  have hnodupstate : ((rerankState en sa gl).map (fun e => e.key)).Nodup := by
    unfold rerankState
    exact nodup_ingest gl _ "glossary" (nodup_ingest sa _ "sanskrit"
      (nodup_ingest en [] "english" List.nodup_nil))
  have hkeymap : ((rerankState en sa gl).map mkRanked).map
      (fun r => keyOf r.sloka_index r.scripture_name) =
      (rerankState en sa gl).map (fun e => e.key) := by
    rw [List.map_map]
    refine List.map_congr_left ?_
    intro e he
    show keyOf (mkRanked e).sloka_index (mkRanked e).scripture_name = e.key
    exact (hwfall e he).2.2.symm
  have hlenstate : (rerankState en sa gl).length = uniqueKeyCount en sa gl := by
    have h1 : (rerankState en sa gl).map (fun e => e.key) =
        keyFold (keyFold (keyFold [] en) sa) gl := by
      unfold rerankState
      rw [keysOf_ingest, keysOf_ingest, keysOf_ingest]
      rfl
    have h2 := congrArg List.length h1
    rw [List.length_map] at h2
    exact h2
  have htrimnodup : ((rerankTrimmed en sa gl top_n).map
      (fun r => keyOf r.sloka_index r.scripture_name)).Nodup := by
    unfold rerankTrimmed
    rw [List.map_take]
    refine List.Nodup.sublist (List.take_sublist _ _) ?_
    have hperm := (sortOrd_perm (fun a b : RankedEntry => decide (b.score ≤ a.score))
      ((rerankState en sa gl).map mkRanked)).map
      (fun r => keyOf r.sloka_index r.scripture_name)
    rw [hperm.nodup_iff, hkeymap]
    exact hnodupstate
  have htrimlen : (rerankTrimmed en sa gl top_n).length =
      min top_n (uniqueKeyCount en sa gl) := by
    unfold rerankTrimmed
    rw [List.length_take, length_sortOrd, List.length_map, hlenstate]
  unfold rerank_sloka_candidates
  cases fetcher with
  | none => exact ⟨htrimnodup, htrimlen⟩
  | some f =>
    constructor
    · rw [List.map_map]
      have hcong : (rerankTrimmed en sa gl top_n).map
          ((fun r => keyOf r.sloka_index r.scripture_name) ∘ enrich1 f) =
          (rerankTrimmed en sa gl top_n).map
          (fun r => keyOf r.sloka_index r.scripture_name) := by
        refine List.map_congr_left ?_
        intro r _
        show keyOf (enrich1 f r).sloka_index (enrich1 f r).scripture_name =
          keyOf r.sloka_index r.scripture_name
        rw [(enrich1_fields f r).1, (enrich1_fields f r).2.1]
      rw [hcong]
      exact htrimnodup
    · rw [List.length_map]
      exact htrimlen

/-! ## Lexicographic string comparison (SQL `<` / `<=` / `BETWEEN`)

SQL string comparison on the canonical indices (`sloka_index < %s`,
`ORDER BY sloka_index`, `BETWEEN`) is modelled by code-point-lexicographic
order, written as an executable Boolean comparator. -/

/-- Strict lexicographic order on character lists by code point. -/
def lexLt : List Char → List Char → Bool
  | _, [] => false
  | [], _ :: _ => true
  | a :: as, b :: bs =>
    if a < b then true
    else if b < a then false
    else lexLt as bs

/-- `s < t` of the store. -/
def strLtB (s t : String) : Bool := lexLt s.data t.data

/-- `s <= t` of the store. -/
def strLeB (s t : String) : Bool := !(strLtB t s)

theorem lexLt_irrefl (l : List Char) : lexLt l l = false := by
  induction l with
  | nil => rfl
  | cons a as ih =>
    unfold lexLt
    rw [if_neg (lt_irrefl a), if_neg (lt_irrefl a)]
    exact ih

theorem lexLt_trans : ∀ (a b c : List Char), lexLt a b = true → lexLt b c = true →
    lexLt a c = true
  | [], [], _, hab, _ => by cases hab
  | _ :: _, [], _, hab, _ => by cases hab
  | _, _ :: _, [], _, hbc => by cases hbc
  | [], _ :: _, _ :: _, _, _ => rfl
  | x :: xs, y :: ys, z :: zs, hab, hbc => by
    unfold lexLt at hab hbc ⊢
    by_cases hxy : x < y
    · by_cases hyz : y < z
      · rw [if_pos (lt_trans hxy hyz)]
      · rw [if_neg hyz] at hbc
        by_cases hzy : z < y
        · rw [if_pos hzy] at hbc; cases hbc
        · have hyzeq : y = z := le_antisymm (not_lt.mp hzy) (not_lt.mp hyz)
          rw [if_pos (show x < z by rw [← hyzeq]; exact hxy)]
    · rw [if_neg hxy] at hab
      by_cases hyx : y < x
      · rw [if_pos hyx] at hab; cases hab
      · rw [if_neg hyx] at hab
        have hxyeq : x = y := le_antisymm (not_lt.mp hyx) (not_lt.mp hxy)
        by_cases hyz : y < z
        · rw [if_pos (show x < z by rw [hxyeq]; exact hyz)]
        · rw [if_neg hyz] at hbc
          by_cases hzy : z < y
          · rw [if_pos hzy] at hbc; cases hbc
          · rw [if_neg hzy] at hbc
            rw [if_neg (show ¬ x < z by rw [hxyeq]; exact hyz),
              if_neg (show ¬ z < x by rw [hxyeq]; exact hzy)]
            exact lexLt_trans xs ys zs hab hbc

theorem lexLt_connex : ∀ (a b : List Char), lexLt a b = false → lexLt b a = false →
    a = b
  | [], [], _, _ => rfl
  | [], _ :: _, hab, _ => by cases hab
  | _ :: _, [], _, hba => by cases hba
  | x :: xs, y :: ys, hab, hba => by
    unfold lexLt at hab hba
    by_cases hxy : x < y
    · rw [if_pos hxy] at hab; cases hab
    · by_cases hyx : y < x
      · rw [if_pos hyx] at hba; cases hba
      · rw [if_neg hxy, if_neg hyx] at hab
        rw [if_neg hyx, if_neg hxy] at hba
        have hxyeq : x = y := le_antisymm (not_lt.mp hyx) (not_lt.mp hxy)
        rw [hxyeq, lexLt_connex xs ys hab hba]

theorem strLeB_tot (a b : String) : strLeB a b = true ∨ strLeB b a = true := by
  by_cases h1 : strLtB b a = true
  · right
    unfold strLeB
    rw [Bool.not_eq_true']
    by_cases h2 : strLtB a b = true
    · exfalso
      have := lexLt_trans a.data b.data a.data h2 h1
      rw [lexLt_irrefl] at this
      cases this
    · exact Bool.eq_false_iff.mpr h2
  · left
    unfold strLeB
    rw [Bool.not_eq_true']
    exact Bool.eq_false_iff.mpr h1

theorem strLeB_trans (a b c : String) (hab : strLeB a b = true)
    (hbc : strLeB b c = true) : strLeB a c = true := by
  unfold strLeB at hab hbc ⊢
  rw [Bool.not_eq_true'] at hab hbc ⊢
  by_cases hca : strLtB c a = true
  · exfalso
    by_cases hcb : strLtB c b = true
    · rw [hcb] at hbc; cases hbc
    · by_cases hbc2 : strLtB b c = true
      · have := lexLt_trans b.data c.data a.data hbc2 hca
        rw [show lexLt b.data a.data = strLtB b a from rfl, hab] at this
        cases this
      · have heq : b.data = c.data :=
          lexLt_connex b.data c.data (Bool.eq_false_iff.mpr hbc2) hbc
        have : strLtB c a = false := by
          unfold strLtB
          rw [← heq]
          exact hab
        rw [hca] at this
        cases this
  · exact Bool.eq_false_iff.mpr hca

/-! ## Context Window Tracer: neighbor windows

Source: `pgutils.get_slokas_before_current_sloka` (lines 394-419) and
`get_slokas_after_current_sloka` (lines 421-446). -/

/-- One lean verse row returned by the neighbor window queries. -/
structure VerseOut where
  sloka_index : String
  scripture_name : String
  input_sloka : String
  english_meaning : String
  glossary_keywords : String
deriving Repr, DecidableEq

/-- `get_slokas_before_current_sloka`: strictly earlier indices, optional
case-insensitive scripture filter, `ORDER BY sloka_index DESC LIMIT n`,
rows with falsy index skipped.  NOTE: the rows are returned in the
descending fetch order — the source does not reverse them here. -/
def get_slokas_before_current_sloka (db : DB) (current_sloka_index : String)
    (scripture_name : String) (number_before : Nat) : List VerseOut :=
  if db.fail then []
  else
    (((sortOrd (fun a b : SMRow => strLeB b.sloka_index a.sloka_index)
        (db.sloka_meaning.filter (fun r =>
          strLtB r.sloka_index current_sloka_index &&
          (scripture_name = "" || pyLower r.scripture_name = pyLower scripture_name)))).take
      number_before).filter (fun r => r.sloka_index ≠ "")).map (fun r =>
        ⟨r.sloka_index, r.scripture_name, r.input_sloka, r.english_meaning, r.keywords⟩)

/-- `get_slokas_after_current_sloka`: strictly later indices,
`ORDER BY sloka_index ASC LIMIT n`. -/
def get_slokas_after_current_sloka (db : DB) (current_sloka_index : String)
    (scripture_name : String) (number_after : Nat) : List VerseOut :=
  if db.fail then []
  else
    (((sortOrd (fun a b : SMRow => strLeB a.sloka_index b.sloka_index)
        (db.sloka_meaning.filter (fun r =>
          strLtB current_sloka_index r.sloka_index &&
          (scripture_name = "" || pyLower r.scripture_name = pyLower scripture_name)))).take
      number_after).filter (fun r => r.sloka_index ≠ "")).map (fun r =>
        ⟨r.sloka_index, r.scripture_name, r.input_sloka, r.english_meaning, r.keywords⟩)

/-! ## Context Window Tracer: chapter context

Source: `pgutils.trace_back_chapter_context` (lines 573-605) and its
`main.py` wrapper `get_chapter_context` (lines 347-358).  The source builds
a query with exactly ONE `%s` placeholder
(`WHERE %s BETWEEN start_sloka_index AND end_sloka_index`) but executes it
with `params=(scripture_name, sloka_index)` — two parameters.  psycopg2
raises on the placeholder/parameter count mismatch (`execute_query`
re-raises), the surrounding `except` swallows it, and the function returns
`[]`.  The query model therefore errors whenever the parameter list does
not have exactly one element. -/

/-- One chapter-context output dict. -/
structure ChapterCtx where
  short_summary : String
  long_summary : String
  emotional_elements : String
  key_characters : String
  thematic_analysis : String
  dharmic_insights : String
  sanskrit_glossary : String
deriving Repr, DecidableEq

/-- The `BETWEEN` query with driver-level parameter binding: a parameter
count different from the single placeholder raises. -/
def chapterSummaryQuery (db : DB) (table : List SummaryRow) (params : List String) :
    Except Unit (List SummaryRow) :=
  if params.length ≠ 1 then .error ()
  else if db.fail then .error ()
  else
    match params with
    | [p] =>
      .ok (table.filter (fun r =>
        strLeB r.start_sloka_index p && strLeB p r.end_sloka_index))
    | _ => .error ()

/-- `trace_back_chapter_context`. -/
def trace_back_chapter_context (db : DB) (sloka_index scripture_name : String) :
    List ChapterCtx :=
  if pyLower scripture_name ∉ (["ramayana", "mahabharata", "bhagavatham"] : List String) then
    []
  else
    match chapterSummaryQuery db
        (if pyLower scripture_name = "ramayana" then db.mv_ramayana
         else if pyLower scripture_name = "mahabharata" then db.mv_mahabharata
         else db.mv_bhagavatham)
        [scripture_name, sloka_index] with
    | .error _ => []
    | .ok rows =>
      rows.map (fun r =>
        ⟨r.short_summary, r.long_summary, r.emotional_elements, r.key_characters,
          r.thematic_analysis, r.dharmic_insights, r.sanskrit_glossary⟩)

/-- `get_chapter_context` (main.py) wraps the tracer in `try/except → []`;
the embedded tracer is already total, so the wrapper is the identity. -/
def get_chapter_context (db : DB) (sloka_index scripture_name : String) : List ChapterCtx :=
  trace_back_chapter_context db sloka_index scripture_name

/-! ## Verse meaning lookup and canonicalization fallback

Source: `pgutils.get_sloka_meanings` (lines 304-322),
`pgutils.list_all_scriptures` (lines 345-374) and
`main.get_sloka_meaning` (lines 99-114). -/

/-- One row of the meaning lookup output (lean row plus attached
commentary references). -/
structure MeaningOut where
  sloka_index : String
  scripture_name : String
  input_sloka : String
  english_meaning : String
  glossary_keywords : String
  bhashya_sloka_indexes : List BRef
deriving Repr, DecidableEq

/-- `list_all_scriptures`: `SELECT * FROM dharma.scriptures LIMIT 50`,
rows normalized to plain dicts; errors degrade to `[]`. -/
def list_all_scriptures (db : DB) : List ScriptureRow :=
  if db.fail then [] else db.scriptures.take MAX_RESULTS_LIMIT

/-- `canonicalize_sloka_index` (main.py): the resolver applied to the
catalog rows it fetches itself via `list_all_scriptures`. -/
def canonicalize_sloka_index (db : DB) (scripture_name sloka_index : String) : CanonResult :=
  canonicalize_core (list_all_scriptures db) scripture_name sloka_index

/-- `get_sloka_meanings`: optional equality filters for index and (lowered)
scripture name, `LIMIT 50`, bhashya references attached per row; errors
degrade to `[]`. -/
def get_sloka_meanings (db : DB) (sloka_index scripture_name : String) : List MeaningOut :=
  if db.fail then []
  else
    ((db.sloka_meaning.filter (fun r =>
        (sloka_index = "" || r.sloka_index = sloka_index) &&
        (scripture_name = "" || pyLower r.scripture_name = pyLower scripture_name))).take
      MAX_RESULTS_LIMIT).map (fun r =>
        ⟨r.sloka_index, r.scripture_name, r.input_sloka, r.english_meaning, r.keywords,
          get_bhashya_references db r.sloka_index r.scripture_name⟩)

/-- `get_sloka_meaning` (main.py): when a scripture name is given and the
index contains a dot, try to canonicalize; on success look up the
canonical index, otherwise (failure value — or exception, which the
source catches with a warning) look up the original index unchanged. -/
def get_sloka_meaning (db : DB) (sloka_index : String) (scripture_name : String) :
    List MeaningOut :=
  if scripture_name ≠ "" ∧ '.' ∈ sloka_index.data then
    match canonicalize_sloka_index db scripture_name sloka_index with
    | .ok c _ => get_sloka_meanings db c scripture_name
    | .err _ => get_sloka_meanings db sloka_index scripture_name
  else get_sloka_meanings db sloka_index scripture_name

/-- Common shape of both neighbor-window result sets (filter, sort by a
total order on the index, limit, skip falsy indices, project). -/
def winOut (tbl : List SMRow) (pred : SMRow → Bool) (leB : String → String → Bool)
    (n : Nat) : List VerseOut :=
  (((sortOrd (fun a b : SMRow => leB a.sloka_index b.sloka_index) (tbl.filter pred)).take
      n).filter (fun r => r.sloka_index ≠ "")).map (fun r =>
    ⟨r.sloka_index, r.scripture_name, r.input_sloka, r.english_meaning, r.keywords⟩)

theorem before_eq_winOut (db : DB) (cur sname : String) (n : Nat) (h : db.fail = false) :
    get_slokas_before_current_sloka db cur sname n =
      winOut db.sloka_meaning
        (fun r => strLtB r.sloka_index cur &&
          (sname = "" || pyLower r.scripture_name = pyLower sname))
        (fun x y => strLeB y x) n := by
  unfold get_slokas_before_current_sloka winOut
  rw [h]
  rfl

theorem after_eq_winOut (db : DB) (cur sname : String) (n : Nat) (h : db.fail = false) :
    get_slokas_after_current_sloka db cur sname n =
      winOut db.sloka_meaning
        (fun r => strLtB cur r.sloka_index &&
          (sname = "" || pyLower r.scripture_name = pyLower sname))
        (fun x y => strLeB x y) n := by
  unfold get_slokas_after_current_sloka winOut
  rw [h]
  rfl

theorem winOut_empty (tbl : List SMRow) (pred : SMRow → Bool)
    (leB : String → String → Bool) (n : Nat) (h : ∀ r ∈ tbl, pred r = false) :
    winOut tbl pred leB n = [] := by
  unfold winOut
  have hfe : tbl.filter pred = [] := by
    rw [List.filter_eq_nil_iff]
    intro a ha
    rw [h a ha]
    simp
  rw [hfe]
  rw [show sortOrd (fun a b : SMRow => leB a.sloka_index b.sloka_index) [] = [] from rfl,
    List.take_nil]
  rfl

theorem window_props (tbl : List SMRow) (pred : SMRow → Bool)
    (leB : String → String → Bool)
    (htot : ∀ a b, leB a b = true ∨ leB b a = true)
    (htr : ∀ a b c, leB a b = true → leB b c = true → leB a c = true) (n : Nat) :
    (winOut tbl pred leB n).length ≤ n ∧
    (∀ v ∈ winOut tbl pred leB n, ∃ r, r ∈ tbl ∧ pred r = true ∧
      v.sloka_index = r.sloka_index ∧ v.scripture_name = r.scripture_name) ∧
    (winOut tbl pred leB n).Pairwise
      (fun a b => leB a.sloka_index b.sloka_index = true) := by
  refine ⟨?_, ?_, ?_⟩
  · unfold winOut
    rw [List.length_map]
    calc ((((sortOrd (fun a b : SMRow => leB a.sloka_index b.sloka_index)
          (tbl.filter pred)).take n).filter (fun r => r.sloka_index ≠ ""))).length
        ≤ ((sortOrd (fun a b : SMRow => leB a.sloka_index b.sloka_index)
          (tbl.filter pred)).take n).length := List.length_filter_le _ _
      _ ≤ n := List.length_take_le _ _
  · intro v hv
    unfold winOut at hv
    rcases List.mem_map.mp hv with ⟨p, hp, hpv⟩
    have hpt := List.take_subset _ _ ((List.mem_filter.mp hp).1)
    rw [mem_sortOrd] at hpt
    rcases List.mem_filter.mp hpt with ⟨hptbl, hpred⟩
    exact ⟨p, hptbl, hpred, by rw [← hpv], by rw [← hpv]⟩
  · have hsorted : ((sortOrd (fun a b : SMRow => leB a.sloka_index b.sloka_index)
        (tbl.filter pred)).take n).Pairwise
        (fun a b : SMRow => leB a.sloka_index b.sloka_index = true) := by
      refine List.Pairwise.sublist (List.take_sublist _ _) ?_
      exact sortOrd_pairwise (fun a b : SMRow => leB a.sloka_index b.sloka_index)
        (fun a b => htot a.sloka_index b.sloka_index)
        (fun a b c hab hbc => htr _ _ _ hab hbc) _
    unfold winOut
    rw [List.pairwise_map]
    refine (hsorted.filter _).imp ?_
    intro a b h
    exact h

/-- Totality of the descending comparator. -/
theorem strLeB_desc_tot (a b : String) :
    strLeB b a = true ∨ strLeB a b = true := by
  rcases strLeB_tot b a with h | h
  · exact Or.inl h
  · exact Or.inr h

theorem strLeB_desc_tr (a b c : String) (hab : strLeB b a = true)
    (hbc : strLeB c b = true) : strLeB c a = true :=
  strLeB_trans c b a hbc hab

/-- A two-verse `sloka_meaning` store used by the neighbor claims. -/
def smDB : DB :=
  ⟨false, [], [⟨"X_01", "gita", "a", "b", "c"⟩, ⟨"X_02", "gita", "d", "e", "f"⟩],
    [], [], [], [], [], [], [], []⟩

/-- C7 as frozen is refuted on ordering: the before-window is returned in
DESCENDING index order (the source never reverses it; only
`trace_immediate_context` does), so with two earlier verses the result is
`["X_02", "X_01"]`, not ascending. -/
theorem c7_counterexample :
    (get_slokas_before_current_sloka smDB "X_03" "" 5).map (fun r => r.sloka_index) =
      ["X_02", "X_01"] ∧
    strLtB "X_01" "X_02" = true := by
  exact ⟨rfl, rfl⟩

/-- C7 (amended): both neighbor operations return at most `count` verses
strictly before (resp. after) the given index, restricted to the given
scripture when one is provided; the after-window is ordered ascending; the
before-window is returned DESCENDING by the operation itself and its
reverse — the order `trace_immediate_context` presents after
`list(reversed(previous_slokas))` — is ascending; at a corpus boundary the
before-window is empty, not an error (the embedding is total). -/
theorem c7_neighbors_amended (db : DB) (cur sname : String) (n : Nat) :
    ((get_slokas_before_current_sloka db cur sname n).length ≤ n ∧
     (get_slokas_before_current_sloka db cur sname n).Pairwise
       (fun a b => strLeB b.sloka_index a.sloka_index = true) ∧
     ((get_slokas_before_current_sloka db cur sname n).reverse).Pairwise
       (fun a b => strLeB a.sloka_index b.sloka_index = true) ∧
     (∀ v ∈ get_slokas_before_current_sloka db cur sname n,
       strLtB v.sloka_index cur = true ∧
       (sname ≠ "" → pyLower v.scripture_name = pyLower sname))) ∧
    ((get_slokas_after_current_sloka db cur sname n).length ≤ n ∧
     (get_slokas_after_current_sloka db cur sname n).Pairwise
       (fun a b => strLeB a.sloka_index b.sloka_index = true) ∧
     (∀ v ∈ get_slokas_after_current_sloka db cur sname n,
       strLtB cur v.sloka_index = true ∧
       (sname ≠ "" → pyLower v.scripture_name = pyLower sname))) ∧
    ((∀ r ∈ db.sloka_meaning, strLtB r.sloka_index cur = false) →
      get_slokas_before_current_sloka db cur sname n = []) := by
  by_cases hf : db.fail
  · have hb : get_slokas_before_current_sloka db cur sname n = [] := by
      unfold get_slokas_before_current_sloka
      rw [if_pos hf]
    have ha : get_slokas_after_current_sloka db cur sname n = [] := by
      unfold get_slokas_after_current_sloka
      rw [if_pos hf]
    rw [hb, ha]
    refine ⟨⟨Nat.zero_le n, List.Pairwise.nil, ?_, ?_⟩,
      ⟨Nat.zero_le n, List.Pairwise.nil, ?_⟩, fun _ => rfl⟩
    · exact List.Pairwise.nil
    · intro v hv; cases hv
    · intro v hv; cases hv
  · have hfb : db.fail = false := Bool.eq_false_iff.mpr hf
    rw [before_eq_winOut db cur sname n hfb, after_eq_winOut db cur sname n hfb]
    rcases window_props db.sloka_meaning
      (fun r => strLtB r.sloka_index cur &&
        (sname = "" || pyLower r.scripture_name = pyLower sname))
      (fun x y => strLeB y x) strLeB_desc_tot strLeB_desc_tr n with ⟨hbl, hbm, hbp⟩
    rcases window_props db.sloka_meaning
      (fun r => strLtB cur r.sloka_index &&
        (sname = "" || pyLower r.scripture_name = pyLower sname))
      (fun x y => strLeB x y) strLeB_tot strLeB_trans n with ⟨hal, ham, hap⟩
    refine ⟨⟨hbl, hbp, ?_, ?_⟩, ⟨hal, hap, ?_⟩, ?_⟩
    · rw [List.pairwise_reverse]
      exact hbp
    · intro v hv
      rcases hbm v hv with ⟨r, _, hpr, hv1, hv2⟩
      rw [Bool.and_eq_true] at hpr
      refine ⟨by rw [hv1]; exact hpr.1, ?_⟩
      intro hsn
      have hor := hpr.2
      rw [Bool.or_eq_true] at hor
      rcases hor with h | h
      · exact absurd (of_decide_eq_true h) hsn
      · rw [hv2]
        exact of_decide_eq_true h
    · intro v hv
      rcases ham v hv with ⟨r, _, hpr, hv1, hv2⟩
      rw [Bool.and_eq_true] at hpr
      refine ⟨by rw [hv1]; exact hpr.1, ?_⟩
      intro hsn
      have hor := hpr.2
      rw [Bool.or_eq_true] at hor
      rcases hor with h | h
      · exact absurd (of_decide_eq_true h) hsn
      · rw [hv2]
        exact of_decide_eq_true h
    · intro hbound
      refine winOut_empty _ _ _ _ ?_
      intro r hr
      rw [hbound r hr, Bool.false_and]

/-- C7 witness: the spec's own boundary scenario — asking for verses before
the first verse of the scripture yields `[]`, not an error. -/
theorem c7_witness :
    get_slokas_before_current_sloka smDB "X_01" "gita" 5 = [] :=
  (c7_neighbors_amended smDB "X_01" "gita" 5).2.2 (by decide)

/-- A store whose ramayana summary view contains one chapter row. -/
def ramDB : DB :=
  ⟨false, [], [], [], [], [], [], [],
    [⟨"R_01_01", "R_01_99", "s", "l", "e", "k", "t", "d", "g"⟩], [], []⟩

/-- C8: the chapter-context tracer can never return the containing summary
row.  The store holds a ramayana summary row whose
`[start_sloka_index, end_sloka_index]` interval contains `R_01_05`, yet
`trace_back_chapter_context` (and its `get_chapter_context` wrapper)
returns `[]`: the source executes a one-placeholder `BETWEEN` query with
the two-element parameter tuple `(scripture_name, sloka_index)`, the driver
raises on the mismatch, and the `except` swallows it. -/
theorem c8_chapter_context_bug :
    (⟨"R_01_01", "R_01_99", "s", "l", "e", "k", "t", "d", "g"⟩ : SummaryRow) ∈
      ramDB.mv_ramayana ∧
    strLeB "R_01_01" "R_01_05" = true ∧ strLeB "R_01_05" "R_01_99" = true ∧
    trace_back_chapter_context ramDB "R_01_05" "ramayana" = [] ∧
    get_chapter_context ramDB "R_01_05" "ramayana" = [] := by
  exact ⟨List.mem_singleton.mpr rfl, rfl, rfl, rfl, rfl⟩

/-- C10: when the index contains a dot, a scripture name is provided, and
canonicalization does not succeed, `get_sloka_meaning` silently performs
the meaning lookup with the original index string unchanged (the source
catches any exception of the canonicalization path with a warning and
proceeds the same way). -/
theorem c10_fallback_original_index (db : DB) (si sn : String)
    (hsn : sn ≠ "") (hdot : '.' ∈ si.data)
    (hfail : (canonicalize_sloka_index db sn si).isErr = true) :
    get_sloka_meaning db si sn = get_sloka_meanings db si sn := by
  unfold get_sloka_meaning
  rw [if_pos ⟨hsn, hdot⟩]
  cases hc : canonicalize_sloka_index db sn si with
  | ok c s =>
    rw [hc] at hfail
    simp [CanonResult.isErr] at hfail
  | err e => rfl

/-- Store for the C10 witness: one catalog row, one meaning row stored
under the raw index `2.47`. -/
def c10DB : DB :=
  ⟨false, [⟨"gita", "KRISHNA_BG_01_01", ""⟩], [⟨"2.47", "bhagavatham", "x", "y", "z"⟩],
    [], [], [], [], [], [], [], []⟩

/-- C10 witness: an unknown scripture name makes canonicalization fail and
the lookup proceeds with the original `2.47`. -/
theorem c10_witness :
    ("unknownscripture" : String) ≠ "" ∧ '.' ∈ ("2.47" : String).data ∧
    (canonicalize_sloka_index c10DB "unknownscripture" "2.47").isErr = true ∧
    get_sloka_meaning c10DB "2.47" "unknownscripture" =
      get_sloka_meanings c10DB "2.47" "unknownscripture" :=
  ⟨by decide, by decide, rfl,
    c10_fallback_original_index c10DB "2.47" "unknownscripture" (by decide) (by decide) rfl⟩

/-- C9 witness: concrete evaluations of every branch of the resolver. -/
theorem c9_witness :
    get_bhashya_references
      ⟨false, [], [], [⟨"sankara_bhashya", "SB_02_47", "KRISHNA_BG_02_47"⟩], [], [], [], [], [], [], []⟩
      "KRISHNA_BG_02_47" "ramayana" = [] :=
  (c9_bhashya_total
      ⟨false, [], [], [⟨"sankara_bhashya", "SB_02_47", "KRISHNA_BG_02_47"⟩], [], [], [], [], [], [], []⟩
      "KRISHNA_BG_02_47" "ramayana").1 (by decide) (by decide)

end Smadkmcp
